import Mathlib

/-!
Shallow embedding of the transit diagram layout engine of this repository
(src/assets/diagram.js) together with the route selection, major stop
selection, route ordering and label layout logic that the specification
describes.  Positions are modelled as exact rationals; stop identifiers and
stop names are strings.  JavaScript Map and Set objects are modelled as
association lists and duplicate free lists that preserve insertion order,
because the source iterates them in insertion order.  The dual
string/number stop id matching of the source (matchesStop, normalizeStopId)
collapses to string equality here because every stop id is modelled as its
canonical string form.
-/

namespace TransitRouter

/-! ### Generic list helpers (JS Map / Set / stable sort semantics) -/

/-- Absolute value on rationals, written out as the source writes Math.abs. -/
def ratAbs (q : ℚ) : ℚ := if q < 0 then -q else q

/-- JS Set.add: append the element at the end unless it is already present
(insertion order is preserved, later iteration follows it). -/
def setAdd {α : Type} [DecidableEq α] (s : List α) (x : α) : List α :=
  if x ∈ s then s else s ++ [x]

/-- Lookup in an association list with string keys (JS object indexing and
Map.get). -/
def alookup {α : Type} (m : List (String × α)) (k : String) : Option α :=
  match m with
  | [] => none
  | (k2, v) :: rest => if k2 = k then some v else alookup rest k

/-- JS Map.set / object assignment on an association list: replace the value
of an existing key in place, otherwise append the new binding at the end. -/
def mapSet {α : Type} (m : List (String × α)) (k : String) (v : α) : List (String × α) :=
  match m with
  | [] => [(k, v)]
  | (k2, v2) :: rest => if k2 = k then (k, v) :: rest else (k2, v2) :: mapSet rest k v

/-- Map.set for natural number keys (positionByRelativeIndex in the source). -/
def natMapSet (m : List (Nat × ℚ)) (k : Nat) (v : ℚ) : List (Nat × ℚ) :=
  match m with
  | [] => [(k, v)]
  | (k2, v2) :: rest => if k2 = k then (k, v) :: rest else (k2, v2) :: natMapSet rest k v

/-- Map.get for natural number keys. -/
def natLookup (m : List (Nat × ℚ)) (k : Nat) : Option ℚ :=
  match m with
  | [] => none
  | (k2, v) :: rest => if k2 = k then some v else natLookup rest k

/-- new Set(list): keep the first occurrence of every element. -/
def dedupKeepFirst {α : Type} [DecidableEq α] (l : List α) : List α :=
  l.foldl (fun acc x => setAdd acc x) []

/-- Stable insertion used by the sort below: the new element goes in front
of the first list element that it may precede. -/
def stableInsert {α : Type} (le : α → α → Prop) [DecidableRel le] (x : α) :
    List α → List α
  | [] => [x]
  | y :: ys => if le x y then x :: y :: ys else y :: stableInsert le x ys

/-- Stable sort modelling Array.prototype.sort with a total comparator
(ES2019 requires the builtin sort to be stable; for a total preorder every
stable sort produces the same list, so insertion sort is a faithful model). -/
def sortBy {α : Type} (le : α → α → Prop) [DecidableRel le] : List α → List α
  | [] => []
  | x :: xs => stableInsert le x (sortBy le xs)

/-- Minimum of a list of rationals, Math.min applied to a spread array. -/
def listMin : List ℚ → ℚ
  | [] => 0
  | [x] => x
  | x :: y :: xs => min x (listMin (y :: xs))

/-- Maximum of a list of rationals, Math.max applied to a spread array. -/
def listMax : List ℚ → ℚ
  | [] => 0
  | [x] => x
  | x :: y :: xs => max x (listMax (y :: xs))

/-! ### Data model -/

/-- One route as the diagram code consumes it.  seqForGrouping is the
forward sequence attached by processRoutes (diagram.js lines 656-662);
getSequence falls back to the full stop sequence when it is absent. -/
structure Route where
  routeId : String
  stopSequence : List String
  seqForGrouping : Option (List String) := none
deriving DecidableEq, Repr

/-- Entry of the stop position map: final percent position plus the
isCommon flag (diagram.js lines 363, 369, 425). -/
structure StopPos where
  position : ℚ
  isCommon : Bool
deriving DecidableEq, Repr

/-- Stop with ranking used by selectMajorStops (diagram.js lines 101-105). -/
structure RankedStop where
  stopId : String
  ranking : ℚ
  isTerminal : Bool
deriving DecidableEq, Repr

/-- Label entry of the label layout stage (diagram.js lines 1072-1103);
only the fields that the horizontal collision pass reads are modelled. -/
structure Label where
  text : String
  x : ℚ
  originalX : ℚ
  y : ℚ
deriving DecidableEq, Repr

/-! ### Constants (diagram.js lines 12-26) -/

def MIN_SPACING_PERCENT : ℚ := 15

def MIN_SPACING_INDEPENDENT : ℚ := 5

def MIN_POSITION_DIFF : ℚ := 2

def LEFT_PADDING : ℚ := 5

def RIGHT_PADDING : ℚ := 10

def MAX_DRIFT_PERCENT : ℚ := 15

def ROUTE_LABEL_WIDTH : ℚ := 80

/-- usableWidth (diagram.js line 261). -/
def usableWidth : ℚ := 100 - LEFT_PADDING - RIGHT_PADDING

/-! ### Small helpers from diagram.js -/

/-- getStopName (diagram.js line 40): stopsData[stopId]?.[2] || String(stopId).
stopsData is modelled as an association from stop id to stop name; the
falsy check mirrors the JS || fallback for an empty name. -/
def getStopName (stopsData : List (String × String)) (stopId : String) : String :=
  match alookup stopsData stopId with
  | some n => if n = "" then stopId else n
  | none => stopId

/-- Index walk of findStopIndex. -/
def findStopIdxAux (stopId : String) : Nat → List String → Option Nat
  | _, [] => none
  | i, id :: rest => if id = stopId then some i else findStopIdxAux stopId (i + 1) rest

/-- findStopIndex (diagram.js lines 37-38) on canonical string ids. -/
def findStopIdx (seq : List String) (stopId : String) : Option Nat :=
  findStopIdxAux stopId 0 seq

/-- findAvailablePosition loop body (diagram.js lines 181-193): walk the
used positions in insertion order; on a conflict jump just past the
conflicting position, clamping at the right padding and stopping there. -/
def findAvailLoop (pos : ℚ) : List ℚ → ℚ
  | [] => pos
  | u :: rest =>
    if ratAbs (pos - u) < MIN_POSITION_DIFF then
      let p := u + MIN_POSITION_DIFF
      if p > 100 - RIGHT_PADDING then 100 - RIGHT_PADDING
      else findAvailLoop p rest
    else findAvailLoop pos rest

/-- findAvailablePosition (diagram.js lines 181-193). -/
def findAvailablePosition (desiredPos : ℚ) (usedPositions : List ℚ) : ℚ :=
  findAvailLoop desiredPos usedPositions

/-! ### createStopPositionMap (diagram.js lines 195-452), stage by stage -/

/-- Index walk collecting the routes whose sequence contains a stop id. -/
def routesContainingAux (stopId : String) : Nat → List Route → List Nat
  | _, [] => []
  | i, r :: rest =>
    if stopId ∈ r.stopSequence then i :: routesContainingAux stopId (i + 1) rest
    else routesContainingAux stopId (i + 1) rest

/-- Indices of the routes whose stop sequence contains the given stop id
(diagram.js lines 206-211, the inner routes.forEach). -/
def routesContaining (routes : List Route) (stopId : String) : List Nat :=
  routesContainingAux stopId 0 routes

/-- nameToRoutes (diagram.js lines 200-212): for every ordered stop other
than the current stop, accumulate into the entry of its name the set of
route indices whose sequence contains the stop id. -/
def nameToRoutesOf (routes : List Route) (orderedStops : List String)
    (currentStopId : String) (stopsData : List (String × String)) :
    List (String × List Nat) :=
  orderedStops.foldl
    (fun acc stopId =>
      if stopId = currentStopId then acc
      else
        let name := getStopName stopsData stopId
        let idxs := routesContaining routes stopId
        match alookup acc name with
        | some l => mapSet acc name (idxs.foldl (fun l2 i => setAdd l2 i) l)
        | none => acc ++ [(name, idxs.foldl (fun l2 i => setAdd l2 i) [])])
    []

/-- universalStops (diagram.js lines 215-218): names whose route set covers
every route. -/
def universalsOf : List (String × List Nat) → Nat → List String
  | [], _ => []
  | p :: rest, n =>
    if p.2.length = n then p.1 :: universalsOf rest n else universalsOf rest n

/-- groupsToMerge (diagram.js lines 226-231): indices of the non null
groups that meet the route set of a name. -/
def mergeTargetsAux (routeSet : List Nat) : Nat → List (Option (List Nat)) → List Nat
  | _, [] => []
  | i, none :: rest => mergeTargetsAux routeSet (i + 1) rest
  | i, some grp :: rest =>
    if ∃ j ∈ routeSet, j ∈ grp then i :: mergeTargetsAux routeSet (i + 1) rest
    else mergeTargetsAux routeSet (i + 1) rest

/-- One merging step of the route group computation (diagram.js lines
223-242) for a single nameToRoutes entry. -/
def mergeStep (universal : List String) (groups : List (Option (List Nat)))
    (p : String × List Nat) : List (Option (List Nat)) :=
  if p.2.length < 2 ∨ p.1 ∈ universal then groups
  else
    match mergeTargetsAux p.2 0 groups with
    | [] => groups
    | [_] => groups
    | t :: restIdx =>
      let target := (groups.getD t none).getD []
      let merged := restIdx.foldl
        (fun tgt gi =>
          match groups.getD gi none with
          | some g => g.foldl (fun l i => setAdd l i) tgt
          | none => tgt)
        target
      let g1 := groups.set t (some merged)
      restIdx.foldl (fun gs gi => gs.set gi none) g1

/-- routeGroups (diagram.js lines 221-244): start from singleton groups and
merge the groups that share a non universal name carried by at least two
routes; null slots are dropped at the end. -/
def mergeGroups (n2r : List (String × List Nat)) (numRoutes : Nat)
    (universal : List String) : List (List Nat) :=
  (n2r.foldl (mergeStep universal)
      ((List.range numRoutes).map (fun i => some [i]))).filterMap id

/-- Number of groups that meet a route set (involvedGroups, diagram.js
lines 251-256). -/
def involvedCount (routeSet : List Nat) : List (List Nat) → Nat
  | [] => 0
  | g :: rest =>
    if ∃ j ∈ routeSet, j ∈ g then 1 + involvedCount routeSet rest
    else involvedCount routeSet rest

/-- crossGroupStops (diagram.js lines 247-258): all universal names plus
every shared non universal name that touches more than one group. -/
def crossGroupStopsOf (n2r : List (String × List Nat)) (universal : List String)
    (groups : List (List Nat)) : List String :=
  n2r.foldl
    (fun acc p =>
      if p.2.length < 2 ∨ p.1 ∈ universal then acc
      else if involvedCount p.2 groups > 1 then setAdd acc p.1 else acc)
    universal

/-- orderedCrossGroupNames (diagram.js lines 267-273). -/
def orderedCrossNamesOf (orderedStops : List String) (currentStopId : String)
    (stopsData : List (String × String)) (cross : List String) : List String :=
  orderedStops.foldl
    (fun acc stopId =>
      if stopId = currentStopId then acc
      else
        let name := getStopName stopsData stopId
        if name ∈ cross ∧ name ∉ acc then acc ++ [name] else acc)
    []

/-- Desired position of the cross group name at a given index (diagram.js
lines 280-283). -/
def crossDesired (n : Nat) (idx : Nat) : ℚ :=
  if (n : ℚ) * MIN_SPACING_PERCENT ≤ usableWidth then
    LEFT_PADDING + (idx : ℚ) * MIN_SPACING_PERCENT
  else
    LEFT_PADDING + ((idx : ℚ) / ((max (n - 1) 1 : Nat) : ℚ)) * usableWidth

/-- State of the cross group assignment loop (diagram.js lines 276-291). -/
structure CrossState where
  crossAssoc : List (String × ℚ)
  used : List ℚ
  global : List (String × ℚ)
deriving DecidableEq, Repr

/-- Cross group position assignment (diagram.js lines 276-291). -/
def assignCross (names : List String) : CrossState :=
  names.enum.foldl
    (fun st p =>
      let desired := crossDesired names.length p.1
      let pos := findAvailablePosition desired st.used
      { crossAssoc := st.crossAssoc ++ [(p.2, pos)],
        used := setAdd st.used pos,
        global := mapSet st.global p.2 pos })
    ⟨[], [], []⟩

/-- lastCrossGroupPosition (diagram.js lines 296-300); the JS || fallback
maps a missing or zero position to LEFT_PADDING. -/
def lastCrossPos (names : List String) (crossAssoc : List (String × ℚ)) : ℚ :=
  match names.getLast? with
  | none => LEFT_PADDING
  | some n =>
    match alookup crossAssoc n with
    | some p => if p = 0 then LEFT_PADDING else p
    | none => LEFT_PADDING

/-- independentGroupStartPos (diagram.js lines 301-304). -/
def independentStartPos (names : List String) (crossAssoc : List (String × ℚ)) : ℚ :=
  min (lastCrossPos names crossAssoc + MIN_SPACING_PERCENT) (100 - RIGHT_PADDING)

/-- groupCommonNames for one group (diagram.js lines 309-320). -/
def groupCommonNamesOf (orderedStops : List String) (currentStopId : String)
    (stopsData : List (String × String)) (n2r : List (String × List Nat))
    (cross : List String) (group : List Nat) : List String :=
  orderedStops.foldl
    (fun acc stopId =>
      if stopId = currentStopId then acc
      else
        let name := getStopName stopsData stopId
        match alookup n2r name with
        | some routeSet =>
          if 2 ≤ routeSet.length ∧ name ∉ cross ∧ (∀ i ∈ routeSet, i ∈ group) ∧ name ∉ acc
          then acc ++ [name] else acc
        | none => acc)
    []

/-- Desired position of a group local name at a given relative index when
the relative index was not positioned before (diagram.js lines 326-333). -/
def groupDesired (startPos : ℚ) (count : Nat) (idx : Nat) : ℚ :=
  if (count : ℚ) * MIN_SPACING_PERCENT ≤ usableWidth then
    startPos + (idx : ℚ) * MIN_SPACING_PERCENT
  else
    startPos + ((idx : ℚ) / ((max (count - 1) 1 : Nat) : ℚ)) *
      (100 - RIGHT_PADDING - startPos)

/-- State of the per group assignment loop (diagram.js lines 294-343). -/
structure GroupState where
  assocs : List (List (String × ℚ))
  posByRel : List (Nat × ℚ)
  global : List (String × ℚ)
deriving DecidableEq, Repr

/-- Position assignment for the common names of one group (diagram.js
lines 322-341); collisions are only checked against the snapshot of cross
group positions. -/
def assignOneGroup (crossPositions : List ℚ) (startPos : ℚ) (names : List String)
    (st : GroupState) : GroupState :=
  let inner := names.enum.foldl
    (fun (q : List (String × ℚ) × List (Nat × ℚ) × List (String × ℚ)) p =>
      let desired :=
        match natLookup q.2.1 p.1 with
        | some d => d
        | none => groupDesired startPos names.length p.1
      let pos := findAvailablePosition desired crossPositions
      (mapSet q.1 p.2 pos, natMapSet q.2.1 p.1 pos, mapSet q.2.2 p.2 pos))
    ([], st.posByRel, st.global)
  { assocs := st.assocs ++ [inner.1], posByRel := inner.2.1, global := inner.2.2 }

/-- All group assignments in group order (diagram.js lines 307-343). -/
def assignGroups (orderedStops : List String) (currentStopId : String)
    (stopsData : List (String × String)) (n2r : List (String × List Nat))
    (cross : List String) (groups : List (List Nat)) (startPos : ℚ)
    (crossPositions : List ℚ) (global0 : List (String × ℚ)) : GroupState :=
  groups.foldl
    (fun st group =>
      let names := groupCommonNamesOf orderedStops currentStopId stopsData n2r cross group
      assignOneGroup crossPositions startPos names st)
    ⟨[], [], global0⟩

/-- routeStops of one route (diagram.js lines 347-351): the ordered stops
other than the current stop whose id occurs in the route sequence; note
that this keeps the order of orderedStops, not the order of the route. -/
def routeStopsOf (orderedStops : List String) (currentStopId : String) (r : Route) :
    List String :=
  match orderedStops with
  | [] => []
  | id :: rest =>
    if id ≠ currentStopId ∧ id ∈ r.stopSequence then
      id :: routeStopsOf rest currentStopId r
    else routeStopsOf rest currentStopId r

/-- Anchor test of findAnchor (diagram.js lines 378-383). -/
def isAnchorName (groupPositions crossAssoc : List (String × ℚ)) (n : String) : Bool :=
  (alookup groupPositions n).isSome || (alookup crossAssoc n).isSome

/-- findAnchor in the backward direction (diagram.js lines 374-385). -/
def findAnchorBack (stopsData : List (String × String))
    (groupPositions crossAssoc : List (String × ℚ)) (routeStops : List String)
    (stopIndex : Nat) : Option Nat :=
  (List.range stopIndex).reverse.find?
    (fun i => isAnchorName groupPositions crossAssoc (getStopName stopsData (routeStops.getD i "")))

/-- findAnchor in the forward direction (diagram.js lines 374-385). -/
def findAnchorFwd (stopsData : List (String × String))
    (groupPositions crossAssoc : List (String × ℚ)) (routeStops : List String)
    (stopIndex : Nat) : Option Nat :=
  (List.range' (stopIndex + 1) (routeStops.length - (stopIndex + 1))).find?
    (fun i => isAnchorName groupPositions crossAssoc (getStopName stopsData (routeStops.getD i "")))

/-- getPosition (diagram.js lines 389-392): group position first, cross
group position otherwise; only ever applied to anchors, where one of the
two lookups succeeds. -/
def getAnchorPos (stopsData : List (String × String))
    (groupPositions crossAssoc : List (String × ℚ)) (stopId : String) : ℚ :=
  let n := getStopName stopsData stopId
  match alookup groupPositions n with
  | some p => p
  | none => (alookup crossAssoc n).getD 0

/-- The linear interpolation between two anchor positions (diagram.js
line 399). -/
def interpDesired (startPos endPos progress : ℚ) : ℚ :=
  startPos + (endPos - startPos) * progress

/-- Desired position of a route local stop (diagram.js lines 394-418). -/
def localDesired (stopsData : List (String × String))
    (groupPositions crossAssoc : List (String × ℚ)) (routeStops : List String)
    (stopIndex : Nat) : ℚ :=
  match findAnchorBack stopsData groupPositions crossAssoc routeStops stopIndex,
      findAnchorFwd stopsData groupPositions crossAssoc routeStops stopIndex with
  | some b, some f =>
    let startPos := getAnchorPos stopsData groupPositions crossAssoc (routeStops.getD b "")
    let endPos := getAnchorPos stopsData groupPositions crossAssoc (routeStops.getD f "")
    interpDesired startPos endPos (((stopIndex : ℚ) - (b : ℚ)) / ((f : ℚ) - (b : ℚ)))
  | some b, none =>
    let basePos := getAnchorPos stopsData groupPositions crossAssoc (routeStops.getD b "")
    min (basePos + ((stopIndex : ℚ) - (b : ℚ)) * MIN_SPACING_INDEPENDENT) 95
  | none, some f =>
    let basePos := getAnchorPos stopsData groupPositions crossAssoc (routeStops.getD f "")
    max (basePos - ((f : ℚ) - (stopIndex : ℚ)) * MIN_SPACING_INDEPENDENT) LEFT_PADDING
  | none, none =>
    if (routeStops.length : ℚ) * MIN_SPACING_INDEPENDENT ≤ usableWidth then
      LEFT_PADDING + (stopIndex : ℚ) * MIN_SPACING_INDEPENDENT
    else
      LEFT_PADDING + ((stopIndex : ℚ) / ((max (routeStops.length - 1) 1 : Nat) : ℚ)) * usableWidth

/-- State threaded through the per route stop assignment (stopPositionMap
and globalPositionMap of the source). -/
structure RouteState where
  spm : List (String × StopPos)
  global : List (String × ℚ)
deriving DecidableEq, Repr

/-- Processing of one stop of one route (diagram.js lines 356-426). -/
def routeStopStep (stopsData : List (String × String)) (crossAssoc : List (String × ℚ))
    (groupPositions : List (String × ℚ)) (routeStops : List String)
    (st : RouteState) (p : Nat × String) : RouteState :=
  let stopId := p.2
  let name := getStopName stopsData stopId
  if (alookup st.spm stopId).isSome then st
  else
    match alookup crossAssoc name with
    | some pos => { st with spm := st.spm ++ [(stopId, ⟨pos, true⟩)] }
    | none =>
      match alookup groupPositions name with
      | some pos => { st with spm := st.spm ++ [(stopId, ⟨pos, true⟩)] }
      | none =>
        let desired := localDesired stopsData groupPositions crossAssoc routeStops p.1
        let allUsed := st.global.map (fun e => e.2)
        let pos := findAvailablePosition desired allUsed
        { spm := st.spm ++ [(stopId, ⟨pos, false⟩)],
          global := mapSet st.global name pos }

/-- Index of the first group containing a route index (routeGroups.find,
diagram.js line 353). -/
def findGroupIdx (routeIndex : Nat) : Nat → List (List Nat) → Option Nat
  | _, [] => none
  | i, g :: rest =>
    if routeIndex ∈ g then some i else findGroupIdx routeIndex (i + 1) rest

/-- Per route stop position pass (diagram.js lines 346-427). -/
def assignRoutes (routes : List Route) (orderedStops : List String)
    (currentStopId : String) (stopsData : List (String × String))
    (crossAssoc : List (String × ℚ)) (groups : List (List Nat))
    (groupAssocs : List (List (String × ℚ))) (global0 : List (String × ℚ)) :
    RouteState :=
  routes.enum.foldl
    (fun st p =>
      let routeStops := routeStopsOf orderedStops currentStopId p.2
      let groupPositions :=
        match findGroupIdx p.1 0 groups with
        | some gi => groupAssocs.getD gi []
        | none => []
      routeStops.enum.foldl (routeStopStep stopsData crossAssoc groupPositions routeStops) st)
    ⟨[], global0⟩

/-- The affine map that the normalization step (diagram.js lines 429-449)
applies to every stored position: the shift runs only when the minimum
exceeds the left padding, and the scale condition and scale factor use the
maximum of the snapshot taken before the shift. -/
def normFun (ps : List ℚ) (p : ℚ) : ℚ :=
  let minP := listMin ps
  let shifted := if LEFT_PADDING < minP then p + (LEFT_PADDING - minP) else p
  let maxP := listMax ps
  if maxP < 100 - RIGHT_PADDING ∧ LEFT_PADDING < maxP then
    LEFT_PADDING + (shifted - LEFT_PADDING) *
      ((100 - RIGHT_PADDING - LEFT_PADDING) / (maxP - LEFT_PADDING))
  else shifted

/-- The normalization step of createStopPositionMap on a bare list of
positions (diagram.js lines 429-449). -/
def normalizePositions (ps : List ℚ) : List ℚ :=
  if ps.isEmpty then ps else ps.map (normFun ps)

/-- The stop position map before normalization. -/
def preNormMap (routes : List Route) (orderedStops : List String)
    (currentStopId : String) (stopsData : List (String × String)) :
    List (String × StopPos) :=
  let n2r := nameToRoutesOf routes orderedStops currentStopId stopsData
  let universal := universalsOf n2r routes.length
  let groups := mergeGroups n2r routes.length universal
  let cross := crossGroupStopsOf n2r universal groups
  let crossNames := orderedCrossNamesOf orderedStops currentStopId stopsData cross
  let cst := assignCross crossNames
  let startPos := independentStartPos crossNames cst.crossAssoc
  let crossPositions := dedupKeepFirst (cst.global.map (fun e => e.2))
  let gst := assignGroups orderedStops currentStopId stopsData n2r cross groups startPos
    crossPositions cst.global
  (assignRoutes routes orderedStops currentStopId stopsData cst.crossAssoc groups
    gst.assocs gst.global).spm

/-- createStopPositionMap (diagram.js lines 195-452).  The positionToNames
map of the source is written but never read inside the function and is not
part of the returned value, so it is omitted. -/
def createStopPositionMap (routes : List Route) (orderedStops : List String)
    (currentStopId : String) (stopsData : List (String × String)) :
    List (String × StopPos) :=
  let spm := preNormMap routes orderedStops currentStopId stopsData
  let allPositions := spm.map (fun e => e.2.position)
  if allPositions.isEmpty then spm
  else spm.map (fun e => (e.1, ⟨normFun allPositions e.2.position, e.2.isCommon⟩))

/-- The universal test that the source performs (routeSet.size equal to the
route count, diagram.js lines 216-217), as a boolean on a stop name. -/
def isUniversal (routes : List Route) (orderedStops : List String)
    (currentStopId : String) (stopsData : List (String × String)) (n : String) : Bool :=
  match alookup (nameToRoutesOf routes orderedStops currentStopId stopsData) n with
  | some rs => if rs.length = routes.length then true else false
  | none => false

/-- Walk of the stop sequence keeping the displayed stops. -/
def routeOrderStopsAux (orderedStops : List String) (currentStopId : String) :
    List String → List String
  | [] => []
  | id :: rest =>
    if id ≠ currentStopId ∧ id ∈ orderedStops then
      id :: routeOrderStopsAux orderedStops currentStopId rest
    else routeOrderStopsAux orderedStops currentStopId rest

/-- The displayed stops of a route taken in route order (the order of the
stop sequence), the reading used by the monotonicity claim. -/
def routeOrderStops (orderedStops : List String) (currentStopId : String) (r : Route) :
    List String :=
  routeOrderStopsAux orderedStops currentStopId r.stopSequence

/-! ### selectMajorStops and route selection (diagram.js lines 100-179, 648-653) -/

/-- The first accumulation loop of selectMajorStops (diagram.js lines
113-115): add terminals and names above the significance threshold. -/
def selectLoopA (threshold : ℚ) (sorted : List RankedStop) (acc : List String) :
    List String :=
  sorted.foldl
    (fun a st =>
      if st.isTerminal = true ∨ threshold ≤ st.ranking then setAdd a st.stopId else a)
    acc

/-- The second loop of selectMajorStops (diagram.js lines 117-120) with its
break condition. -/
def selectLoopB (target : Nat) (maxRanking : ℚ) : List RankedStop → List String → List String
  | [], acc => acc
  | st :: rest, acc =>
    if target ≤ acc.length ∧ st.ranking < maxRanking / 2 then acc
    else selectLoopB target maxRanking rest (setAdd acc st.stopId)

/-- The minimum fill loop of selectMajorStops (diagram.js lines 124-127). -/
def selectLoopC (minStops : Nat) : List RankedStop → List String → List String
  | [], acc => acc
  | st :: rest, acc =>
    if minStops ≤ acc.length then acc
    else selectLoopC minStops rest (setAdd acc st.stopId)

/-- The descending ranking order of the sort at diagram.js line 107. -/
def rankGE (a b : RankedStop) : Prop := b.ranking ≤ a.ranking

instance : DecidableRel rankGE := fun a b => inferInstanceAs (Decidable (b.ranking ≤ a.ranking))

/-- selectMajorStops (diagram.js lines 100-131).  rankingData is modelled
as a total function, matching the JS lookup with || 0 fallback; the JS Set
is a duplicate free list in insertion order, whose length is the size. -/
def selectMajorStops (stops : List String) (rankingData : String → ℚ)
    (terminalStops : List String) (currentStopId : Option String)
    (targetMajorStops : Nat) : List String :=
  let stopsWithRankings := stops.map
    (fun id => RankedStop.mk id (rankingData id)
      (if id ∈ terminalStops then true else false))
  let sorted := sortBy rankGE stopsWithRankings
  let maxRanking := match sorted.head? with | some s => s.ranking | none => 0
  let significanceThreshold := maxRanking * (1 / 5)
  let s0 := match currentStopId with | some c => setAdd [] c | none => []
  let s1 := selectLoopA significanceThreshold sorted s0
  let s2 := selectLoopB targetMajorStops maxRanking sorted s1
  let minStops := min 5 stops.length
  if s2.length < minStops then selectLoopC minStops sorted s2 else s2

/-- Last stop of the full sequence of a route (diagram.js line 141). -/
def lastStopOf (r : Route) : String := (r.stopSequence.getLast?).getD ""

/-- The onward stops after the selected stop (diagram.js line 138). -/
def onwardStops (r : Route) (i : Nat) : List String := r.stopSequence.drop (i + 1)

/-- forwardStopsWithRankings (diagram.js lines 142-146). -/
def onwardRanked (r : Route) (i : Nat) (rankingData : String → ℚ) : List RankedStop :=
  (onwardStops r i).map
    (fun s => RankedStop.mk s (rankingData s) (if s = lastStopOf r then true else false))

/-- isLastMajorStopInRoute (diagram.js lines 133-159).  The source builds a
fresh ranking object from the forward stops; every lookup it performs
agrees with the ambient ranking function, which is therefore passed on
directly. -/
def isLastMajorStopInRoute (route : Route) (selectedStopId : String)
    (rankingData : String → ℚ) (targetMajorStops : Nat) : Bool :=
  match findStopIdx route.stopSequence selectedStopId with
  | none => false
  | some currentIndex =>
    let forwardStops := onwardStops route currentIndex
    if forwardStops.isEmpty then true
    else
      let fwdRanked := onwardRanked route currentIndex rankingData
      let sorted := sortBy rankGE fwdRanked
      let majorStopsAfter := selectMajorStops (sorted.map (fun s => s.stopId)) rankingData
        ((fwdRanked.filter (fun s => s.isTerminal)).map (fun s => s.stopId)) none
        targetMajorStops
      majorStopsAfter.isEmpty

/-- The route selection filter of processRoutes (diagram.js lines 648-651). -/
def filterNonTerminalRoutes (routes : List Route) (stopId : String)
    (rankingData : String → ℚ) (targetMajorStops : Nat) : List Route :=
  routes.filter (fun r => ! isLastMajorStopInRoute r stopId rankingData targetMajorStops)

/-! ### findRoutesForStop (diagram.js lines 56-74) -/

/-- One destination entry of a service: destination stop id and the stop
sequence variants. -/
structure ServiceDest where
  destId : String
  sequences : List (List String)
deriving DecidableEq, Repr

/-- One service record: display name plus destination entries.  The JS
object mixes the name key with the destination keys; the embedding keeps
the name as a separate field, matching the destId === name skip. -/
structure ServiceData where
  name : String
  dests : List ServiceDest
deriving DecidableEq, Repr

/-- The route record that findRoutesForStop returns. -/
structure FoundRoute where
  routeId : String
  routeName : String
  destinationStopId : String
  stopSequence : List String
deriving DecidableEq, Repr

/-- The inner destination scan of findRoutesForStop (diagram.js lines
60-71): first destination one of whose sequence variants contains the
stop; the JS break leaves the loop after the first hit. -/
def findDest (stopId : String) : List ServiceDest → Option ServiceDest
  | [] => none
  | d :: rest =>
    if ∃ seq ∈ d.sequences, stopId ∈ seq then some d else findDest stopId rest

/-- findRoutesForStop (diagram.js lines 56-74): one entry per service whose
destinations match, carrying sequences[0] of the matched destination. -/
def findRoutesForStop (stopId : String) (servicesData : List (String × ServiceData)) :
    List FoundRoute :=
  servicesData.filterMap
    (fun p =>
      (findDest stopId p.2.dests).map
        (fun d => FoundRoute.mk p.1 p.2.name d.destId (d.sequences.headD [])))

/-! ### Route ordering comparator (diagram.js lines 555-605) -/

/-- getSequence (diagram.js line 462). -/
def getSequence (r : Route) : List String := r.seqForGrouping.getD r.stopSequence

/-- String comparison as an integer sign, the model of localeCompare for
the code point ordered strings used here. -/
def strCmpInt (a b : String) : Int :=
  if a < b then -1 else if a = b then 0 else 1

/-- Decimal value of a character list, none on a non digit. -/
def digitsVal : List Char → Nat → Option Nat
  | [], acc => some acc
  | c :: rest, acc =>
    if c.isDigit then digitsVal rest (acc * 10 + (c.toNat - 48)) else none

/-- Numeric parse of an identifier: its decimal value when every
character is a digit, none otherwise. -/
def strToNat? (s : String) : Option Nat :=
  if s.data = [] then none else digitsVal s.data 0

/-- Modelled from the spec: sortServices lives in src/assets/utils/bus,
whose source file is not part of src; the spec describes it as the
"lexical/numeric comparison of the route identifier" used as the
deterministic tie break, modelled as numeric comparison when both
identifiers are numerals and code point comparison otherwise. -/
def sortServices (a b : String) : Int :=
  match strToNat? a, strToNat? b with
  | some na, some nb => (na : Int) - (nb : Int)
  | _, _ => strCmpInt a b

/-- buildForwardGroupStats (diagram.js lines 573-584) presented as the
frequency table for one forward index: how many routes carry each stop
name at that index of their grouping sequence. -/
def buildForwardGroupStats (routes : List Route) (stopsData : List (String × String))
    (i : Nat) : List (String × Nat) :=
  routes.foldl
    (fun m r =>
      match (getSequence r).get? i with
      | some id =>
        let name := getStopName stopsData id
        mapSet m name (((alookup m name).getD 0) + 1)
      | none => m)
    []

/-- The comparator loop of createGroupSizeComparator (diagram.js lines
588-602) walking the two name sequences from forward index 1; an exhausted
sequence counts -1, a missing table entry counts 0, and the fallback fb is
the route id comparison reached only when every position agrees. -/
def groupCmpAux (cnt : Nat → String → Nat) (fb : Int) :
    Nat → List String → List String → Int
  | _, [], [] => fb
  | i, [], nb :: _ =>
    let cb : Int := (cnt i nb : Nat)
    if (-1 : Int) ≠ cb then cb - (-1) else 1
  | i, na :: _, [] =>
    let ca : Int := (cnt i na : Nat)
    if ca ≠ (-1 : Int) then (-1) - ca else -1
  | i, na :: la, nb :: lb =>
    if na = nb then groupCmpAux cnt fb (i + 1) la lb
    else
      let ca : Int := (cnt i na : Nat)
      let cb : Int := (cnt i nb : Nat)
      if ca ≠ cb then cb - ca
      else
        let c := strCmpInt na nb
        if c ≠ 0 then c else groupCmpAux cnt fb (i + 1) la lb

/-- createGroupSizeComparator (diagram.js lines 586-605) applied to two
routes, with the stats table built from the given route list. -/
def createGroupSizeComparator (routes : List Route) (stopsData : List (String × String))
    (a b : Route) : Int :=
  groupCmpAux
    (fun i n => (alookup (buildForwardGroupStats routes stopsData i) n).getD 0)
    (sortServices a.routeId b.routeId) 1
    (((getSequence a).map (getStopName stopsData)).drop 1)
    (((getSequence b).map (getStopName stopsData)).drop 1)

/-! ### Label overlap resolution (diagram.js lines 1107-1137) -/

/-- estimateWidth (diagram.js line 1110). -/
def estimateWidth (text : String) : ℚ := (text.length : ℚ) * 6 + 24

/-- xScale (diagram.js line 879) with the diagram width as a parameter. -/
def xScale (diagramWidth : ℚ) (percent : ℚ) : ℚ :=
  ROUTE_LABEL_WIDTH + percent / 100 * diagramWidth

/-- The projected horizontal footprint of a label text (diagram.js lines
1110-1111); proj stands for the cosine of the label angle, the only
irrational constant of the source, kept as a parameter. -/
def projWidth (proj : ℚ) (text : String) : ℚ := estimateWidth text * proj

/-- A rational stand-in for the cosine of the 20 degree label angle
(cos is about 0.9396926); used only to instantiate concrete runs. -/
def cosLabelAngle : ℚ := 9397 / 10000

/-- One pairwise step of the horizontal label pass (diagram.js lines
1115-1137): when the projected footprints overlap, push the next label
right by the overlap converted to percent, clamped to the drift window
around its original anchor intersected with [0, 100]. -/
def resolvePair (proj dW : ℚ) (cur nxt : Label) : Label :=
  let currentRight := xScale dW cur.x + projWidth proj cur.text / 2
  let nextLeft := xScale dW nxt.x - projWidth proj nxt.text / 2
  if currentRight + 1 > nextLeft then
    let overlap := currentRight + 1 - nextLeft
    let proposedX := nxt.x + overlap / dW * 100
    let maxX := min (nxt.originalX + MAX_DRIFT_PERCENT) 100
    let minX := max (nxt.originalX - MAX_DRIFT_PERCENT) 0
    { nxt with x := min maxX (max minX proposedX) }
  else nxt

/-- Left to right walk of the sorted labels (diagram.js lines 1115-1137);
the current label is emitted unchanged and the possibly pushed next label
becomes the new current one. -/
def resolvePass (proj dW : ℚ) : Label → List Label → List Label
  | cur, [] => [cur]
  | cur, nxt :: rest => cur :: resolvePass proj dW (resolvePair proj dW cur nxt) rest

/-- The ascending anchor order of the sort at diagram.js line 1107. -/
def labelLE (a b : Label) : Prop := a.x ≤ b.x

instance : DecidableRel labelLE := fun a b => inferInstanceAs (Decidable (a.x ≤ b.x))

/-- The horizontal label collision resolution: sort by anchor (diagram.js
line 1107) then run the pairwise pass. -/
def resolveLabelOverlaps (proj dW : ℚ) (labels : List Label) : List Label :=
  match sortBy labelLE labels with
  | [] => []
  | l :: rest => resolvePass proj dW l rest

/-- The footprint overlap criterion the source tests (diagram.js line
1130): projected right edge of a plus the minimum gap passes the projected
left edge of b. -/
def labelsOverlap (proj dW : ℚ) (a b : Label) : Prop :=
  xScale dW b.x - projWidth proj b.text / 2 < xScale dW a.x + projWidth proj a.text / 2 + 1

/-- The list of positions stored in a stop position map. -/
def positionsOf (m : List (String × StopPos)) : List ℚ :=
  m.map (fun e => e.2.position)

/-! ### Concrete evaluation lemmas

Runs of the embedded pipeline on small concrete inputs used by the claim
counterexamples and witnesses.  Route r0 = [c, g], r1 = [c, g, z],
r2 = [c, p] with p not displayed: g is shared by r0 and r1 only, so it is
group local; z extrapolates from g; the minimum before normalization is 20,
so a shift runs, and the scale factor is computed from the stale pre shift
maximum 25. -/

set_option maxHeartbeats 1000000 in
lemma evalC1_map :
    createStopPositionMap
      [⟨"r0", ["c","g"], none⟩, ⟨"r1", ["c","g","z"], none⟩, ⟨"r2", ["c","p"], none⟩]
      ["c","g","z"] "c" [] =
    [("g", ⟨5, true⟩), ("z", ⟨105/4, false⟩)] := by
  rw [createStopPositionMap, preNormMap]
  norm_num +decide [nameToRoutesOf, routesContaining, routesContainingAux, universalsOf,
    mergeGroups, mergeStep, mergeTargetsAux, crossGroupStopsOf, involvedCount,
    orderedCrossNamesOf, assignCross, crossDesired, lastCrossPos, independentStartPos,
    dedupKeepFirst, assignGroups, assignOneGroup, groupCommonNamesOf, groupDesired,
    assignRoutes, routeStopsOf, routeStopStep, localDesired, findAnchorBack, findAnchorFwd,
    isAnchorName, getAnchorPos, interpDesired, findAvailablePosition, findAvailLoop, ratAbs,
    normFun, listMin, listMax, getStopName, alookup, setAdd, mapSet, natMapSet, natLookup,
    findGroupIdx, usableWidth, MIN_SPACING_PERCENT, MIN_SPACING_INDEPENDENT,
    MIN_POSITION_DIFF, LEFT_PADDING, RIGHT_PADDING, List.foldl, List.enum, List.enumFrom,
    List.map, List.find?, List.range, List.range', List.getD, List.get?, List.getLast?,
    List.filterMap, List.length]

set_option maxHeartbeats 1000000 in
/-- Route r0 = r1 = [c, g, u], r2 = [c, u]: u is universal and sits at the
left padding, g is group local and starts right of the cross block, even
though g precedes u on both displaying routes; the scale step then pins g
to the right edge. -/
lemma evalC4_map :
    createStopPositionMap
      [⟨"r0", ["c","g","u"], none⟩, ⟨"r1", ["c","g","u"], none⟩, ⟨"r2", ["c","u"], none⟩]
      ["c","g","u"] "c" [] =
    [("g", ⟨90, true⟩), ("u", ⟨5, true⟩)] := by
  rw [createStopPositionMap, preNormMap]
  norm_num +decide [nameToRoutesOf, routesContaining, routesContainingAux, universalsOf,
    mergeGroups, mergeStep, mergeTargetsAux, crossGroupStopsOf, involvedCount,
    orderedCrossNamesOf, assignCross, crossDesired, lastCrossPos, independentStartPos,
    dedupKeepFirst, assignGroups, assignOneGroup, groupCommonNamesOf, groupDesired,
    assignRoutes, routeStopsOf, routeStopStep, localDesired, findAnchorBack, findAnchorFwd,
    isAnchorName, getAnchorPos, interpDesired, findAvailablePosition, findAvailLoop, ratAbs,
    normFun, listMin, listMax, getStopName, alookup, setAdd, mapSet, natMapSet, natLookup,
    findGroupIdx, usableWidth, MIN_SPACING_PERCENT, MIN_SPACING_INDEPENDENT,
    MIN_POSITION_DIFF, LEFT_PADDING, RIGHT_PADDING, List.foldl, List.enum, List.enumFrom,
    List.map, List.find?, List.range, List.range', List.getD, List.get?, List.getLast?,
    List.filterMap, List.length]

set_option maxHeartbeats 1000000 in
/-- Two stops with different ids but one shared name A, present in both
routes: the name is universal and both ids receive its single position. -/
lemma evalC5_map :
    createStopPositionMap
      [⟨"r0", ["c","a1"], none⟩, ⟨"r1", ["c","a2"], none⟩]
      ["c","a1","a2"] "c" [("a1","A"),("a2","A")] =
    [("a1", ⟨5, true⟩), ("a2", ⟨5, true⟩)] := by
  rw [createStopPositionMap, preNormMap]
  norm_num +decide [nameToRoutesOf, routesContaining, routesContainingAux, universalsOf,
    mergeGroups, mergeStep, mergeTargetsAux, crossGroupStopsOf, involvedCount,
    orderedCrossNamesOf, assignCross, crossDesired, lastCrossPos, independentStartPos,
    dedupKeepFirst, assignGroups, assignOneGroup, groupCommonNamesOf, groupDesired,
    assignRoutes, routeStopsOf, routeStopStep, localDesired, findAnchorBack, findAnchorFwd,
    isAnchorName, getAnchorPos, interpDesired, findAvailablePosition, findAvailLoop, ratAbs,
    normFun, listMin, listMax, getStopName, alookup, setAdd, mapSet, natMapSet, natLookup,
    findGroupIdx, usableWidth, MIN_SPACING_PERCENT, MIN_SPACING_INDEPENDENT,
    MIN_POSITION_DIFF, LEFT_PADDING, RIGHT_PADDING, List.foldl, List.enum, List.enumFrom,
    List.map, List.find?, List.range, List.range', List.getD, List.get?, List.getLast?,
    List.filterMap, List.length]

set_option maxHeartbeats 1600000 in
set_option maxRecDepth 4000 in
/-- Two routes sharing six universal names; r0 interpolates four local
stops between the first two universal positions 5 and 22, r1 then places
y1 between the same anchors: the desired 13.5 collides with 59/5 and the
bump walks to 103/5, within 7/5 of the universal position 22 that the scan
had already passed.  The pre shift maximum is 90, so normalization leaves
every position unchanged. -/
lemma evalC3_preNorm :
    preNormMap
      [⟨"r0", ["c","u1","x1","x2","x3","x4","u2","u3","u4","u5","u6"], none⟩,
       ⟨"r1", ["c","u1","y1","u2","u3","u4","u5","u6"], none⟩]
      ["c","u1","x1","x2","x3","x4","y1","u2","u3","u4","u5","u6"] "c" [] =
    [("u1", ⟨5, true⟩), ("x1", ⟨42/5, false⟩), ("x2", ⟨59/5, false⟩), ("x3", ⟨76/5, false⟩),
     ("x4", ⟨93/5, false⟩), ("u2", ⟨22, true⟩), ("u3", ⟨39, true⟩), ("u4", ⟨56, true⟩),
     ("u5", ⟨73, true⟩), ("u6", ⟨90, true⟩), ("y1", ⟨103/5, false⟩)] := by
  rw [preNormMap]
  simp only [List.length_cons, List.length_nil, Nat.reduceAdd]
  simp only [show nameToRoutesOf
      [⟨"r0", ["c","u1","x1","x2","x3","x4","u2","u3","u4","u5","u6"], none⟩,
       ⟨"r1", ["c","u1","y1","u2","u3","u4","u5","u6"], none⟩]
      ["c","u1","x1","x2","x3","x4","y1","u2","u3","u4","u5","u6"] "c" [] =
      [("u1", [0, 1]), ("x1", [0]), ("x2", [0]), ("x3", [0]), ("x4", [0]), ("y1", [1]),
       ("u2", [0, 1]), ("u3", [0, 1]), ("u4", [0, 1]), ("u5", [0, 1]), ("u6", [0, 1])] from by
    norm_num +decide [nameToRoutesOf, routesContaining, routesContainingAux, getStopName,
      alookup, mapSet, setAdd, List.foldl]]
  simp only [show universalsOf
      [("u1", [0, 1]), ("x1", [0]), ("x2", [0]), ("x3", [0]), ("x4", [0]), ("y1", [1]),
       ("u2", [0, 1]), ("u3", [0, 1]), ("u4", [0, 1]), ("u5", [0, 1]), ("u6", [0, 1])] 2 =
      ["u1","u2","u3","u4","u5","u6"] from by norm_num [universalsOf]]
  simp only [show mergeGroups
      [("u1", [0, 1]), ("x1", [0]), ("x2", [0]), ("x3", [0]), ("x4", [0]), ("y1", [1]),
       ("u2", [0, 1]), ("u3", [0, 1]), ("u4", [0, 1]), ("u5", [0, 1]), ("u6", [0, 1])] 2
      ["u1","u2","u3","u4","u5","u6"] = [[0],[1]] from by
    norm_num +decide [mergeGroups, mergeStep, mergeTargetsAux, setAdd, List.foldl, List.range,
      List.filterMap, List.getD, List.get?]]
  simp only [show crossGroupStopsOf
      [("u1", [0, 1]), ("x1", [0]), ("x2", [0]), ("x3", [0]), ("x4", [0]), ("y1", [1]),
       ("u2", [0, 1]), ("u3", [0, 1]), ("u4", [0, 1]), ("u5", [0, 1]), ("u6", [0, 1])]
      ["u1","u2","u3","u4","u5","u6"] [[0],[1]] = ["u1","u2","u3","u4","u5","u6"] from by
    norm_num +decide [crossGroupStopsOf, involvedCount, setAdd, List.foldl]]
  simp only [show orderedCrossNamesOf
      ["c","u1","x1","x2","x3","x4","y1","u2","u3","u4","u5","u6"] "c" []
      ["u1","u2","u3","u4","u5","u6"] = ["u1","u2","u3","u4","u5","u6"] from by
    norm_num +decide [orderedCrossNamesOf, getStopName, alookup, List.foldl]]
  simp only [show assignCross ["u1","u2","u3","u4","u5","u6"] =
      ⟨[("u1",5),("u2",22),("u3",39),("u4",56),("u5",73),("u6",90)], [5,22,39,56,73,90],
       [("u1",5),("u2",22),("u3",39),("u4",56),("u5",73),("u6",90)]⟩ from by
    norm_num +decide [assignCross, crossDesired, findAvailablePosition, findAvailLoop, ratAbs,
      setAdd, mapSet, usableWidth, MIN_SPACING_PERCENT, MIN_POSITION_DIFF, LEFT_PADDING,
      RIGHT_PADDING, List.foldl, List.enum, List.enumFrom]]
  simp only [show independentStartPos ["u1","u2","u3","u4","u5","u6"]
      [("u1",5),("u2",22),("u3",39),("u4",56),("u5",73),("u6",90)] = 90 from by
    norm_num +decide [independentStartPos, lastCrossPos, alookup, MIN_SPACING_PERCENT,
      LEFT_PADDING, RIGHT_PADDING, List.getLast?]]
  simp only [show dedupKeepFirst
      (List.map (fun e => e.2)
        [(("u1":String),(5:ℚ)),("u2",22),("u3",39),("u4",56),("u5",73),("u6",90)]) =
      [5,22,39,56,73,90] from by
    norm_num +decide [dedupKeepFirst, setAdd, List.foldl, List.map]]
  simp only [show assignGroups ["c","u1","x1","x2","x3","x4","y1","u2","u3","u4","u5","u6"] "c" []
      [("u1", [0, 1]), ("x1", [0]), ("x2", [0]), ("x3", [0]), ("x4", [0]), ("y1", [1]),
       ("u2", [0, 1]), ("u3", [0, 1]), ("u4", [0, 1]), ("u5", [0, 1]), ("u6", [0, 1])]
      ["u1","u2","u3","u4","u5","u6"] [[0],[1]] 90 [5,22,39,56,73,90]
      [("u1",5),("u2",22),("u3",39),("u4",56),("u5",73),("u6",90)] =
      ⟨[[],[]], [], [("u1",5),("u2",22),("u3",39),("u4",56),("u5",73),("u6",90)]⟩ from by
    norm_num +decide [assignGroups, assignOneGroup, groupCommonNamesOf, getStopName, alookup,
      List.foldl, List.enum, List.enumFrom]]
  simp only [show assignRoutes
      [⟨"r0", ["c","u1","x1","x2","x3","x4","u2","u3","u4","u5","u6"], none⟩,
       ⟨"r1", ["c","u1","y1","u2","u3","u4","u5","u6"], none⟩]
      ["c","u1","x1","x2","x3","x4","y1","u2","u3","u4","u5","u6"] "c" []
      [("u1",5),("u2",22),("u3",39),("u4",56),("u5",73),("u6",90)] [[0],[1]] [[],[]]
      [("u1",5),("u2",22),("u3",39),("u4",56),("u5",73),("u6",90)] =
      ⟨[("u1", ⟨5, true⟩), ("x1", ⟨42/5, false⟩), ("x2", ⟨59/5, false⟩), ("x3", ⟨76/5, false⟩),
        ("x4", ⟨93/5, false⟩), ("u2", ⟨22, true⟩), ("u3", ⟨39, true⟩), ("u4", ⟨56, true⟩),
        ("u5", ⟨73, true⟩), ("u6", ⟨90, true⟩), ("y1", ⟨103/5, false⟩)],
       [("u1",5),("u2",22),("u3",39),("u4",56),("u5",73),("u6",90),
        ("x1",42/5),("x2",59/5),("x3",76/5),("x4",93/5),("y1",103/5)]⟩ from by
    norm_num +decide [assignRoutes, routeStopsOf, routeStopStep, localDesired, findAnchorBack,
      findAnchorFwd, isAnchorName, getAnchorPos, interpDesired, findAvailablePosition,
      findAvailLoop, ratAbs, getStopName, alookup, mapSet, setAdd, findGroupIdx, usableWidth,
      MIN_SPACING_PERCENT, MIN_SPACING_INDEPENDENT, MIN_POSITION_DIFF, LEFT_PADDING,
      RIGHT_PADDING, List.foldl, List.enum, List.enumFrom, List.find?, List.range, List.range',
      List.getD, List.get?]]

set_option maxHeartbeats 1600000 in
set_option maxRecDepth 4000 in
/-- Three routes with six universal names; g1 and g2 are shared by the
first two routes only, so their group starts at the clamped position 90
and g2 lands on the unchecked desired position 90 + 15 = 105, beyond the
right padding and beyond 100; normalization then changes nothing because
the pre shift maximum 105 fails the scale condition. -/
lemma evalC2_preNorm :
    preNormMap
      [⟨"r0", ["c","u1","u2","u3","u4","u5","u6","g1","g2"], none⟩,
       ⟨"r1", ["c","u1","u2","u3","u4","u5","u6","g1","g2"], none⟩,
       ⟨"r2", ["c","u1","u2","u3","u4","u5","u6"], none⟩]
      ["c","u1","u2","u3","u4","u5","u6","g1","g2"] "c" [] =
    [("u1", ⟨5, true⟩), ("u2", ⟨22, true⟩), ("u3", ⟨39, true⟩), ("u4", ⟨56, true⟩),
     ("u5", ⟨73, true⟩), ("u6", ⟨90, true⟩), ("g1", ⟨90, true⟩), ("g2", ⟨105, true⟩)] := by
  rw [preNormMap]
  simp only [List.length_cons, List.length_nil, Nat.reduceAdd]
  simp only [show nameToRoutesOf
      [⟨"r0", ["c","u1","u2","u3","u4","u5","u6","g1","g2"], none⟩,
       ⟨"r1", ["c","u1","u2","u3","u4","u5","u6","g1","g2"], none⟩,
       ⟨"r2", ["c","u1","u2","u3","u4","u5","u6"], none⟩]
      ["c","u1","u2","u3","u4","u5","u6","g1","g2"] "c" [] =
      [("u1", [0,1,2]), ("u2", [0,1,2]), ("u3", [0,1,2]), ("u4", [0,1,2]), ("u5", [0,1,2]),
       ("u6", [0,1,2]), ("g1", [0,1]), ("g2", [0,1])] from by
    norm_num +decide [nameToRoutesOf, routesContaining, routesContainingAux, getStopName,
      alookup, mapSet, setAdd, List.foldl]]
  simp only [show universalsOf
      [("u1", [0,1,2]), ("u2", [0,1,2]), ("u3", [0,1,2]), ("u4", [0,1,2]), ("u5", [0,1,2]),
       ("u6", [0,1,2]), ("g1", [0,1]), ("g2", [0,1])] 3 =
      ["u1","u2","u3","u4","u5","u6"] from by norm_num [universalsOf]]
  simp only [show mergeGroups
      [("u1", [0,1,2]), ("u2", [0,1,2]), ("u3", [0,1,2]), ("u4", [0,1,2]), ("u5", [0,1,2]),
       ("u6", [0,1,2]), ("g1", [0,1]), ("g2", [0,1])] 3
      ["u1","u2","u3","u4","u5","u6"] = [[0,1],[2]] from by
    norm_num +decide [mergeGroups, mergeStep, mergeTargetsAux, setAdd, List.foldl, List.range,
      List.filterMap, List.getD, List.get?, List.set]]
  simp only [show crossGroupStopsOf
      [("u1", [0,1,2]), ("u2", [0,1,2]), ("u3", [0,1,2]), ("u4", [0,1,2]), ("u5", [0,1,2]),
       ("u6", [0,1,2]), ("g1", [0,1]), ("g2", [0,1])]
      ["u1","u2","u3","u4","u5","u6"] [[0,1],[2]] = ["u1","u2","u3","u4","u5","u6"] from by
    norm_num +decide [crossGroupStopsOf, involvedCount, setAdd, List.foldl]]
  simp only [show orderedCrossNamesOf
      ["c","u1","u2","u3","u4","u5","u6","g1","g2"] "c" []
      ["u1","u2","u3","u4","u5","u6"] = ["u1","u2","u3","u4","u5","u6"] from by
    norm_num +decide [orderedCrossNamesOf, getStopName, alookup, List.foldl]]
  simp only [show assignCross ["u1","u2","u3","u4","u5","u6"] =
      ⟨[("u1",5),("u2",22),("u3",39),("u4",56),("u5",73),("u6",90)], [5,22,39,56,73,90],
       [("u1",5),("u2",22),("u3",39),("u4",56),("u5",73),("u6",90)]⟩ from by
    norm_num +decide [assignCross, crossDesired, findAvailablePosition, findAvailLoop, ratAbs,
      setAdd, mapSet, usableWidth, MIN_SPACING_PERCENT, MIN_POSITION_DIFF, LEFT_PADDING,
      RIGHT_PADDING, List.foldl, List.enum, List.enumFrom]]
  simp only [show independentStartPos ["u1","u2","u3","u4","u5","u6"]
      [("u1",5),("u2",22),("u3",39),("u4",56),("u5",73),("u6",90)] = 90 from by
    norm_num +decide [independentStartPos, lastCrossPos, alookup, MIN_SPACING_PERCENT,
      LEFT_PADDING, RIGHT_PADDING, List.getLast?]]
  simp only [show dedupKeepFirst
      (List.map (fun e => e.2)
        [(("u1":String),(5:ℚ)),("u2",22),("u3",39),("u4",56),("u5",73),("u6",90)]) =
      [5,22,39,56,73,90] from by
    norm_num +decide [dedupKeepFirst, setAdd, List.foldl, List.map]]
  simp only [show assignGroups ["c","u1","u2","u3","u4","u5","u6","g1","g2"] "c" []
      [("u1", [0,1,2]), ("u2", [0,1,2]), ("u3", [0,1,2]), ("u4", [0,1,2]), ("u5", [0,1,2]),
       ("u6", [0,1,2]), ("g1", [0,1]), ("g2", [0,1])]
      ["u1","u2","u3","u4","u5","u6"] [[0,1],[2]] 90 [5,22,39,56,73,90]
      [("u1",5),("u2",22),("u3",39),("u4",56),("u5",73),("u6",90)] =
      ⟨[[("g1",90),("g2",105)],[]], [(0,90),(1,105)],
       [("u1",5),("u2",22),("u3",39),("u4",56),("u5",73),("u6",90),("g1",90),("g2",105)]⟩ from by
    norm_num +decide [assignGroups, assignOneGroup, groupCommonNamesOf, groupDesired,
      findAvailablePosition, findAvailLoop, ratAbs, getStopName, alookup, mapSet, natMapSet,
      natLookup, setAdd, usableWidth, MIN_SPACING_PERCENT, MIN_POSITION_DIFF, LEFT_PADDING,
      RIGHT_PADDING, List.foldl, List.enum, List.enumFrom]]
  simp only [show assignRoutes
      [⟨"r0", ["c","u1","u2","u3","u4","u5","u6","g1","g2"], none⟩,
       ⟨"r1", ["c","u1","u2","u3","u4","u5","u6","g1","g2"], none⟩,
       ⟨"r2", ["c","u1","u2","u3","u4","u5","u6"], none⟩]
      ["c","u1","u2","u3","u4","u5","u6","g1","g2"] "c" []
      [("u1",5),("u2",22),("u3",39),("u4",56),("u5",73),("u6",90)] [[0,1],[2]]
      [[("g1",90),("g2",105)],[]]
      [("u1",5),("u2",22),("u3",39),("u4",56),("u5",73),("u6",90),("g1",90),("g2",105)] =
      ⟨[("u1", ⟨5, true⟩), ("u2", ⟨22, true⟩), ("u3", ⟨39, true⟩), ("u4", ⟨56, true⟩),
        ("u5", ⟨73, true⟩), ("u6", ⟨90, true⟩), ("g1", ⟨90, true⟩), ("g2", ⟨105, true⟩)],
       [("u1",5),("u2",22),("u3",39),("u4",56),("u5",73),("u6",90),("g1",90),("g2",105)]⟩ from by
    norm_num +decide [assignRoutes, routeStopsOf, routeStopStep, localDesired, findAnchorBack,
      findAnchorFwd, isAnchorName, getAnchorPos, interpDesired, findAvailablePosition,
      findAvailLoop, ratAbs, getStopName, alookup, mapSet, setAdd, findGroupIdx, usableWidth,
      MIN_SPACING_PERCENT, MIN_SPACING_INDEPENDENT, MIN_POSITION_DIFF, LEFT_PADDING,
      RIGHT_PADDING, List.foldl, List.enum, List.enumFrom, List.find?, List.range, List.range',
      List.getD, List.get?]]

set_option maxHeartbeats 800000 in
lemma evalC2_map :
    createStopPositionMap
      [⟨"r0", ["c","u1","u2","u3","u4","u5","u6","g1","g2"], none⟩,
       ⟨"r1", ["c","u1","u2","u3","u4","u5","u6","g1","g2"], none⟩,
       ⟨"r2", ["c","u1","u2","u3","u4","u5","u6"], none⟩]
      ["c","u1","u2","u3","u4","u5","u6","g1","g2"] "c" [] =
    [("u1", ⟨5, true⟩), ("u2", ⟨22, true⟩), ("u3", ⟨39, true⟩), ("u4", ⟨56, true⟩),
     ("u5", ⟨73, true⟩), ("u6", ⟨90, true⟩), ("g1", ⟨90, true⟩), ("g2", ⟨105, true⟩)] := by
  rw [createStopPositionMap]
  simp only [evalC2_preNorm]
  norm_num [normFun, listMin, listMax, LEFT_PADDING, RIGHT_PADDING, List.map]

/-! ### Generic helper lemmas -/

lemma foldl_rec {α β : Type} {P : β → Prop} (f : β → α → β) :
    ∀ (l : List α) (init : β), P init → (∀ s a, a ∈ l → P s → P (f s a)) →
      P (l.foldl f init) := by
  intro l
  induction l with
  | nil => intro init h0 _; simpa using h0
  | cons a t ih =>
    intro init h0 hstep
    simp only [List.foldl_cons]
    exact ih (f init a) (hstep init a (by simp) h0)
      (fun s b hb hs => hstep s b (by simp [hb]) hs)

lemma mem_setAdd {α : Type} [DecidableEq α] {s : List α} {x y : α} :
    y ∈ setAdd s x ↔ y ∈ s ∨ y = x := by
  unfold setAdd
  by_cases h : x ∈ s
  · simp only [if_pos h]
    constructor
    · exact Or.inl
    · rintro (hy | rfl)
      · exact hy
      · exact h
  · simp [if_neg h, or_comm]

lemma mem_setAdd_self {α : Type} [DecidableEq α] (s : List α) (x : α) :
    x ∈ setAdd s x := mem_setAdd.mpr (Or.inr rfl)

lemma mem_setAdd_of_mem {α : Type} [DecidableEq α] {s : List α} {y : α} (x : α)
    (h : y ∈ s) : y ∈ setAdd s x := mem_setAdd.mpr (Or.inl h)

lemma mem_stableInsert {α : Type} (le : α → α → Prop) [DecidableRel le] (x y : α) :
    ∀ l : List α, (y ∈ stableInsert le x l ↔ y = x ∨ y ∈ l) := by
  intro l
  induction l with
  | nil => simp [stableInsert]
  | cons a t ih =>
    by_cases h : le x a
    · simp [stableInsert, if_pos h]
    · simp only [stableInsert, if_neg h, List.mem_cons, ih]
      tauto

lemma mem_sortBy {α : Type} (le : α → α → Prop) [DecidableRel le] (y : α) :
    ∀ l : List α, (y ∈ sortBy le l ↔ y ∈ l) := by
  intro l
  induction l with
  | nil => simp [sortBy]
  | cons a t ih => simp [sortBy, mem_stableInsert, ih]

lemma alookup_mem {α : Type} {m : List (String × α)} {k : String} {v : α}
    (h : alookup m k = some v) : (k, v) ∈ m := by
  induction m with
  | nil => simp [alookup] at h
  | cons e t ih =>
    obtain ⟨k2, v2⟩ := e
    simp only [alookup] at h
    split at h
    · next hk =>
      subst hk
      obtain rfl : v2 = v := by injection h
      exact List.mem_cons_self _ _
    · exact List.mem_cons_of_mem _ (ih h)

lemma alookup_isSome_of_mem_keys {α : Type} {m : List (String × α)} {k : String}
    (h : k ∈ m.map Prod.fst) : (alookup m k).isSome := by
  induction m with
  | nil => simp at h
  | cons e t ih =>
    obtain ⟨k2, v2⟩ := e
    by_cases hk : k2 = k
    · simp [alookup, if_pos hk]
    · simp only [List.map_cons, List.mem_cons] at h
      rcases h with h | h
      · exact absurd h.symm hk
      · simp only [alookup, if_neg hk]
        exact ih h

lemma mem_mapSet {α : Type} {m : List (String × α)} {k k2 : String} {v v2 : α}
    (h : (k2, v2) ∈ mapSet m k v) : (k2 = k ∧ v2 = v) ∨ (k2, v2) ∈ m := by
  induction m with
  | nil =>
    simp only [mapSet, List.mem_singleton, Prod.mk.injEq] at h
    exact Or.inl h
  | cons e t ih =>
    obtain ⟨k3, v3⟩ := e
    by_cases hk : k3 = k
    · simp only [mapSet, if_pos hk, List.mem_cons, Prod.mk.injEq] at h
      rcases h with h | h
      · exact Or.inl h
      · exact Or.inr (List.mem_cons_of_mem _ h)
    · simp only [mapSet, if_neg hk, List.mem_cons] at h
      rcases h with h | h
      · exact Or.inr (by simp [h])
      · rcases ih h with h2 | h2
        · exact Or.inl h2
        · exact Or.inr (List.mem_cons_of_mem _ h2)

lemma listMin_le : ∀ {l : List ℚ} {a : ℚ}, a ∈ l → listMin l ≤ a := by
  intro l
  induction l with
  | nil => intro a h; simp at h
  | cons x t ih =>
    intro a h
    cases t with
    | nil =>
      simp only [List.mem_singleton] at h
      simp [listMin, h]
    | cons y ys =>
      rcases List.mem_cons.mp h with rfl | h2
      · exact min_le_left _ _
      · exact le_trans (min_le_right x (listMin (y :: ys))) (ih h2)

lemma listMin_mem : ∀ {l : List ℚ}, l ≠ [] → listMin l ∈ l := by
  intro l
  induction l with
  | nil => intro h; exact absurd rfl h
  | cons x t ih =>
    intro _
    cases t with
    | nil => simp [listMin]
    | cons y ys =>
      show min x (listMin (y :: ys)) ∈ _
      rcases le_total x (listMin (y :: ys)) with hle | hle
      · simp [min_eq_left hle]
      · have := ih (by simp)
        simp only [min_eq_right hle, List.mem_cons]
        right
        simpa using this

lemma le_listMax : ∀ {l : List ℚ} {a : ℚ}, a ∈ l → a ≤ listMax l := by
  intro l
  induction l with
  | nil => intro a h; simp at h
  | cons x t ih =>
    intro a h
    cases t with
    | nil =>
      simp only [List.mem_singleton] at h
      simp [listMax, h]
    | cons y ys =>
      rcases List.mem_cons.mp h with rfl | h2
      · exact le_max_left _ _
      · exact le_trans (ih h2) (le_max_right x (listMax (y :: ys)))

lemma listMax_mem : ∀ {l : List ℚ}, l ≠ [] → listMax l ∈ l := by
  intro l
  induction l with
  | nil => intro h; exact absurd rfl h
  | cons x t ih =>
    intro _
    cases t with
    | nil => simp [listMax]
    | cons y ys =>
      show max x (listMax (y :: ys)) ∈ _
      rcases le_total x (listMax (y :: ys)) with hle | hle
      · have := ih (by simp)
        simp only [max_eq_right hle, List.mem_cons]
        right
        simpa using this
      · simp [max_eq_left hle]

lemma listMin_map_mono {f : ℚ → ℚ} (hf : Monotone f) :
    ∀ {l : List ℚ}, l ≠ [] → listMin (l.map f) = f (listMin l) := by
  intro l
  induction l with
  | nil => intro h; exact absurd rfl h
  | cons x t ih =>
    intro _
    cases t with
    | nil => simp [listMin]
    | cons y ys =>
      have := ih (by simp)
      simp only [List.map_cons] at this ⊢
      show min (f x) (listMin (List.map f (y :: ys))) = f (min x (listMin (y :: ys)))
      rw [List.map_cons, this, hf.map_min]

lemma listMax_map_mono {f : ℚ → ℚ} (hf : Monotone f) :
    ∀ {l : List ℚ}, l ≠ [] → listMax (l.map f) = f (listMax l) := by
  intro l
  induction l with
  | nil => intro h; exact absurd rfl h
  | cons x t ih =>
    intro _
    cases t with
    | nil => simp [listMax]
    | cons y ys =>
      have := ih (by simp)
      simp only [List.map_cons] at this ⊢
      show max (f x) (listMax (List.map f (y :: ys))) = f (max x (listMax (y :: ys)))
      rw [List.map_cons, this, hf.map_max]

/-! ### Analysis of the normalization step -/

lemma normFun_monotone (ps : List ℚ) : Monotone (normFun ps) := by
  intro a b hab
  simp only [normFun, LEFT_PADDING, RIGHT_PADDING]
  split_ifs with hc hm hm
  · have hk : (0:ℚ) < (100 - 10 - 5) / (listMax ps - 5) := by
      apply div_pos (by norm_num)
      linarith [hc.2]
    have := mul_le_mul_of_nonneg_right
      (show a + (5 - listMin ps) - 5 ≤ b + (5 - listMin ps) - 5 by linarith) (le_of_lt hk)
    linarith
  · have hk : (0:ℚ) < (100 - 10 - 5) / (listMax ps - 5) := by
      apply div_pos (by norm_num)
      linarith [hc.2]
    have := mul_le_mul_of_nonneg_right (show a - 5 ≤ b - 5 by linarith) (le_of_lt hk)
    linarith
  · linarith
  · exact hab

lemma normFun_at_min (ps : List ℚ) (hne : ps ≠ []) (h5 : ∀ p ∈ ps, LEFT_PADDING ≤ p) :
    normFun ps (listMin ps) = LEFT_PADDING := by
  have hmin5 : (5:ℚ) ≤ listMin ps := by
    have := h5 (listMin ps) (listMin_mem hne)
    simpa [LEFT_PADDING] using this
  simp only [normFun, LEFT_PADDING, RIGHT_PADDING]
  split_ifs with hc hm hm
  · ring
  · have heq : listMin ps = 5 := le_antisymm (not_lt.mp hm) hmin5
    rw [heq]; ring
  · ring
  · exact le_antisymm (not_lt.mp hm) hmin5

lemma normFun_at_max (ps : List ℚ) (hmin : listMin ps = LEFT_PADDING)
    (h1 : LEFT_PADDING < listMax ps) (h2 : listMax ps < 100 - RIGHT_PADDING) :
    normFun ps (listMax ps) = 100 - RIGHT_PADDING := by
  simp only [LEFT_PADDING, RIGHT_PADDING] at hmin h1 h2 ⊢
  simp only [normFun, LEFT_PADDING, RIGHT_PADDING, hmin]
  split_ifs with hc hm hm
  · exact absurd hm (by norm_num)
  · have hne : listMax ps - 5 ≠ 0 := by linarith
    field_simp
  · exact absurd ⟨h2, h1⟩ hc
  · exact absurd ⟨h2, h1⟩ hc

set_option maxHeartbeats 800000 in
lemma evalC3_map :
    createStopPositionMap
      [⟨"r0", ["c","u1","x1","x2","x3","x4","u2","u3","u4","u5","u6"], none⟩,
       ⟨"r1", ["c","u1","y1","u2","u3","u4","u5","u6"], none⟩]
      ["c","u1","x1","x2","x3","x4","y1","u2","u3","u4","u5","u6"] "c" [] =
    [("u1", ⟨5, true⟩), ("x1", ⟨42/5, false⟩), ("x2", ⟨59/5, false⟩), ("x3", ⟨76/5, false⟩),
     ("x4", ⟨93/5, false⟩), ("u2", ⟨22, true⟩), ("u3", ⟨39, true⟩), ("u4", ⟨56, true⟩),
     ("u5", ⟨73, true⟩), ("u6", ⟨90, true⟩), ("y1", ⟨103/5, false⟩)] := by
  rw [createStopPositionMap]
  simp only [evalC3_preNorm]
  norm_num [normFun, listMin, listMax, LEFT_PADDING, RIGHT_PADDING, List.map]

/-! ### Lower bound invariant: every position the pipeline produces is at
least the left padding -/

lemma natLookup_mem {m : List (Nat × ℚ)} {k : Nat} {v : ℚ}
    (h : natLookup m k = some v) : (k, v) ∈ m := by
  induction m with
  | nil => simp [natLookup] at h
  | cons e t ih =>
    obtain ⟨k2, v2⟩ := e
    simp only [natLookup] at h
    split at h
    · next hk =>
      subst hk
      obtain rfl : v2 = v := by injection h
      exact List.mem_cons_self _ _
    · exact List.mem_cons_of_mem _ (ih h)

lemma mem_natMapSet {m : List (Nat × ℚ)} {k k2 : Nat} {v v2 : ℚ}
    (h : (k2, v2) ∈ natMapSet m k v) : (k2 = k ∧ v2 = v) ∨ (k2, v2) ∈ m := by
  induction m with
  | nil =>
    simp only [natMapSet, List.mem_singleton, Prod.mk.injEq] at h
    exact Or.inl h
  | cons e t ih =>
    obtain ⟨k3, v3⟩ := e
    by_cases hk : k3 = k
    · simp only [natMapSet, if_pos hk, List.mem_cons, Prod.mk.injEq] at h
      rcases h with h | h
      · exact Or.inl h
      · exact Or.inr (List.mem_cons_of_mem _ h)
    · simp only [natMapSet, if_neg hk, List.mem_cons] at h
      rcases h with h | h
      · exact Or.inr (by simp [h])
      · rcases ih h with h2 | h2
        · exact Or.inl h2
        · exact Or.inr (List.mem_cons_of_mem _ h2)

lemma mem_dedupKeepFirst {α : Type} [DecidableEq α] {l : List α} {x : α}
    (h : x ∈ dedupKeepFirst l) : x ∈ l := by
  have : ∀ y ∈ dedupKeepFirst l, y ∈ l := by
    apply foldl_rec (P := fun acc => ∀ y ∈ acc, y ∈ l)
    · intro y hy; simp at hy
    · intro s a ha hs y hy
      rcases mem_setAdd.mp hy with hy2 | rfl
      · exact hs y hy2
      · exact ha
  exact this x h

lemma findAvailLoop_ge :
    ∀ (used : List ℚ) (pos : ℚ), LEFT_PADDING ≤ pos → (∀ u ∈ used, LEFT_PADDING ≤ u) →
      LEFT_PADDING ≤ findAvailLoop pos used := by
  intro used
  induction used with
  | nil => intro pos h _; simpa [findAvailLoop] using h
  | cons u rest ih =>
    intro pos hpos hused
    have hu : LEFT_PADDING ≤ u := hused u (List.mem_cons_self _ _)
    have hrest : ∀ v ∈ rest, LEFT_PADDING ≤ v := fun v hv => hused v (List.mem_cons_of_mem _ hv)
    simp only [findAvailLoop]
    split_ifs with h1 h2
    · norm_num [LEFT_PADDING, RIGHT_PADDING]
    · refine ih (u + MIN_POSITION_DIFF) ?_ hrest
      simp only [MIN_POSITION_DIFF, LEFT_PADDING] at hu ⊢
      linarith
    · exact ih pos hpos hrest

lemma crossDesired_ge (n idx : Nat) : LEFT_PADDING ≤ crossDesired n idx := by
  unfold crossDesired
  split_ifs
  · have : (0:ℚ) ≤ (idx : ℚ) * MIN_SPACING_PERCENT := by
      norm_num [MIN_SPACING_PERCENT]
    linarith
  · have : (0:ℚ) ≤ ((idx : ℚ) / ((max (n - 1) 1 : Nat) : ℚ)) * usableWidth := by
      norm_num [usableWidth, LEFT_PADDING, RIGHT_PADDING]
      positivity
    linarith

lemma assignCross_ge (names : List String) :
    (∀ e ∈ (assignCross names).crossAssoc, LEFT_PADDING ≤ e.2)
    ∧ (∀ u ∈ (assignCross names).used, LEFT_PADDING ≤ u)
    ∧ (∀ e ∈ (assignCross names).global, LEFT_PADDING ≤ e.2) := by
  unfold assignCross
  apply foldl_rec (P := fun st : CrossState =>
    (∀ e ∈ st.crossAssoc, LEFT_PADDING ≤ e.2) ∧ (∀ u ∈ st.used, LEFT_PADDING ≤ u) ∧
      (∀ e ∈ st.global, LEFT_PADDING ≤ e.2))
  · exact ⟨by simp, by simp, by simp⟩
  · intro st p _ hst
    have hpos : LEFT_PADDING ≤ findAvailablePosition (crossDesired names.length p.1) st.used :=
      findAvailLoop_ge st.used _ (crossDesired_ge _ _) hst.2.1
    refine ⟨?_, ?_, ?_⟩
    · intro e he
      rcases List.mem_append.mp he with he2 | he2
      · exact hst.1 e he2
      · simp only [List.mem_singleton] at he2
        subst he2
        exact hpos
    · intro u hu
      rcases mem_setAdd.mp hu with hu2 | rfl
      · exact hst.2.1 u hu2
      · exact hpos
    · intro e he
      rcases mem_mapSet he with ⟨_, h2⟩ | he2
      · rw [h2]; exact hpos
      · exact hst.2.2 e he2

lemma lastCrossPos_ge (names : List String) (crossAssoc : List (String × ℚ))
    (h : ∀ e ∈ crossAssoc, LEFT_PADDING ≤ e.2) :
    LEFT_PADDING ≤ lastCrossPos names crossAssoc := by
  unfold lastCrossPos
  split
  · exact le_refl _
  · split
    · next p hl =>
      split_ifs with hp
      · exact le_refl _
      · exact h _ (alookup_mem hl)
    · exact le_refl _

lemma independentStartPos_bounds (names : List String) (crossAssoc : List (String × ℚ))
    (h : ∀ e ∈ crossAssoc, LEFT_PADDING ≤ e.2) :
    LEFT_PADDING ≤ independentStartPos names crossAssoc
    ∧ independentStartPos names crossAssoc ≤ 100 - RIGHT_PADDING := by
  have h5 := lastCrossPos_ge names crossAssoc h
  unfold independentStartPos
  constructor
  · apply le_min
    · exact le_trans h5 (le_add_of_nonneg_right (by norm_num [MIN_SPACING_PERCENT]))
    · norm_num [LEFT_PADDING, RIGHT_PADDING]
  · exact min_le_right _ _

lemma groupDesired_ge (startPos : ℚ) (count idx : Nat)
    (h5 : LEFT_PADDING ≤ startPos) (h90 : startPos ≤ 100 - RIGHT_PADDING) :
    LEFT_PADDING ≤ groupDesired startPos count idx := by
  unfold groupDesired
  split_ifs
  · have : (0:ℚ) ≤ (idx : ℚ) * MIN_SPACING_PERCENT := by
      norm_num [MIN_SPACING_PERCENT]
    linarith
  · have h0 : (0:ℚ) ≤ (idx : ℚ) / ((max (count - 1) 1 : Nat) : ℚ) := by positivity
    have h1 : (0:ℚ) ≤ 100 - RIGHT_PADDING - startPos := by linarith
    nlinarith

lemma assignOneGroup_ge (crossPositions : List ℚ) (startPos : ℚ) (names : List String)
    (st : GroupState) (hcp : ∀ u ∈ crossPositions, LEFT_PADDING ≤ u)
    (h5 : LEFT_PADDING ≤ startPos) (h90 : startPos ≤ 100 - RIGHT_PADDING)
    (hst : (∀ a ∈ st.assocs, ∀ e ∈ a, LEFT_PADDING ≤ e.2)
      ∧ (∀ e ∈ st.posByRel, LEFT_PADDING ≤ e.2) ∧ (∀ e ∈ st.global, LEFT_PADDING ≤ e.2)) :
    (∀ a ∈ (assignOneGroup crossPositions startPos names st).assocs, ∀ e ∈ a, LEFT_PADDING ≤ e.2)
    ∧ (∀ e ∈ (assignOneGroup crossPositions startPos names st).posByRel, LEFT_PADDING ≤ e.2)
    ∧ (∀ e ∈ (assignOneGroup crossPositions startPos names st).global, LEFT_PADDING ≤ e.2) := by
  unfold assignOneGroup
  have hinner :
      (∀ e ∈ (names.enum.foldl
          (fun (q : List (String × ℚ) × List (Nat × ℚ) × List (String × ℚ)) p =>
            let desired :=
              match natLookup q.2.1 p.1 with
              | some d => d
              | none => groupDesired startPos names.length p.1
            let pos := findAvailablePosition desired crossPositions
            (mapSet q.1 p.2 pos, natMapSet q.2.1 p.1 pos, mapSet q.2.2 p.2 pos))
          ([], st.posByRel, st.global)).1, LEFT_PADDING ≤ e.2)
      ∧ (∀ e ∈ (names.enum.foldl
          (fun (q : List (String × ℚ) × List (Nat × ℚ) × List (String × ℚ)) p =>
            let desired :=
              match natLookup q.2.1 p.1 with
              | some d => d
              | none => groupDesired startPos names.length p.1
            let pos := findAvailablePosition desired crossPositions
            (mapSet q.1 p.2 pos, natMapSet q.2.1 p.1 pos, mapSet q.2.2 p.2 pos))
          ([], st.posByRel, st.global)).2.1, LEFT_PADDING ≤ e.2)
      ∧ (∀ e ∈ (names.enum.foldl
          (fun (q : List (String × ℚ) × List (Nat × ℚ) × List (String × ℚ)) p =>
            let desired :=
              match natLookup q.2.1 p.1 with
              | some d => d
              | none => groupDesired startPos names.length p.1
            let pos := findAvailablePosition desired crossPositions
            (mapSet q.1 p.2 pos, natMapSet q.2.1 p.1 pos, mapSet q.2.2 p.2 pos))
          ([], st.posByRel, st.global)).2.2, LEFT_PADDING ≤ e.2) := by
    apply foldl_rec (P := fun q : List (String × ℚ) × List (Nat × ℚ) × List (String × ℚ) =>
      (∀ e ∈ q.1, LEFT_PADDING ≤ e.2) ∧ (∀ e ∈ q.2.1, LEFT_PADDING ≤ e.2) ∧
        (∀ e ∈ q.2.2, LEFT_PADDING ≤ e.2))
    · exact ⟨by simp, hst.2.1, hst.2.2⟩
    · intro q p _ hq
      have hdes : LEFT_PADDING ≤
          (match natLookup q.2.1 p.1 with
           | some d => d
           | none => groupDesired startPos names.length p.1) := by
        cases hnl : natLookup q.2.1 p.1 with
        | some d => exact hq.2.1 _ (natLookup_mem hnl)
        | none => exact groupDesired_ge startPos names.length p.1 h5 h90
      have hpos : LEFT_PADDING ≤ findAvailablePosition
          (match natLookup q.2.1 p.1 with
           | some d => d
           | none => groupDesired startPos names.length p.1) crossPositions :=
        findAvailLoop_ge crossPositions _ hdes hcp
      refine ⟨?_, ?_, ?_⟩
      · intro e he
        rcases mem_mapSet he with ⟨_, h2⟩ | he2
        · rw [h2]; exact hpos
        · exact hq.1 e he2
      · intro e he
        rcases mem_natMapSet he with ⟨_, h2⟩ | he2
        · rw [h2]; exact hpos
        · exact hq.2.1 e he2
      · intro e he
        rcases mem_mapSet he with ⟨_, h2⟩ | he2
        · rw [h2]; exact hpos
        · exact hq.2.2 e he2
  refine ⟨?_, hinner.2.1, hinner.2.2⟩
  intro a ha
  rcases List.mem_append.mp ha with ha2 | ha2
  · exact hst.1 a ha2
  · simp only [List.mem_singleton] at ha2
    subst ha2
    exact hinner.1

lemma assignGroups_ge (orderedStops : List String) (currentStopId : String)
    (stopsData : List (String × String)) (n2r : List (String × List Nat))
    (cross : List String) (groups : List (List Nat)) (startPos : ℚ)
    (crossPositions : List ℚ) (global0 : List (String × ℚ))
    (hcp : ∀ u ∈ crossPositions, LEFT_PADDING ≤ u)
    (h5 : LEFT_PADDING ≤ startPos) (h90 : startPos ≤ 100 - RIGHT_PADDING)
    (hg0 : ∀ e ∈ global0, LEFT_PADDING ≤ e.2) :
    (∀ a ∈ (assignGroups orderedStops currentStopId stopsData n2r cross groups startPos
        crossPositions global0).assocs, ∀ e ∈ a, LEFT_PADDING ≤ e.2)
    ∧ (∀ e ∈ (assignGroups orderedStops currentStopId stopsData n2r cross groups startPos
        crossPositions global0).global, LEFT_PADDING ≤ e.2) := by
  unfold assignGroups
  have h := foldl_rec (P := fun st : GroupState =>
      (∀ a ∈ st.assocs, ∀ e ∈ a, LEFT_PADDING ≤ e.2)
      ∧ (∀ e ∈ st.posByRel, LEFT_PADDING ≤ e.2) ∧ (∀ e ∈ st.global, LEFT_PADDING ≤ e.2))
    (fun st group =>
      assignOneGroup crossPositions startPos
        (groupCommonNamesOf orderedStops currentStopId stopsData n2r cross group) st)
    groups ⟨[], [], global0⟩ ⟨by simp, by simp, hg0⟩
    (fun st g _ hst => assignOneGroup_ge crossPositions startPos _ st hcp h5 h90 hst)
  exact ⟨h.1, h.2.2⟩

lemma findAnchorBack_spec {stopsData : List (String × String)}
    {gp ca : List (String × ℚ)} {routeStops : List String} {stopIndex b : Nat}
    (h : findAnchorBack stopsData gp ca routeStops stopIndex = some b) :
    isAnchorName gp ca (getStopName stopsData (routeStops.getD b "")) = true ∧ b < stopIndex := by
  unfold findAnchorBack at h
  have h1 := List.find?_some h
  have h2 := List.mem_of_find?_eq_some h
  refine ⟨by simpa using h1, ?_⟩
  simpa [List.mem_range] using h2

lemma findAnchorFwd_spec {stopsData : List (String × String)}
    {gp ca : List (String × ℚ)} {routeStops : List String} {stopIndex f : Nat}
    (h : findAnchorFwd stopsData gp ca routeStops stopIndex = some f) :
    isAnchorName gp ca (getStopName stopsData (routeStops.getD f "")) = true ∧ stopIndex < f := by
  unfold findAnchorFwd at h
  have h1 := List.find?_some h
  have h2 := List.mem_of_find?_eq_some h
  refine ⟨by simpa using h1, ?_⟩
  rw [List.mem_range'_1] at h2
  omega

lemma getAnchorPos_ge {stopsData : List (String × String)} {gp ca : List (String × ℚ)}
    {stopId : String} (hg : ∀ e ∈ gp, LEFT_PADDING ≤ e.2)
    (hc : ∀ e ∈ ca, LEFT_PADDING ≤ e.2)
    (ha : isAnchorName gp ca (getStopName stopsData stopId) = true) :
    LEFT_PADDING ≤ getAnchorPos stopsData gp ca stopId := by
  simp only [getAnchorPos]
  unfold isAnchorName at ha
  split
  · next p hgl => exact hg _ (alookup_mem hgl)
  · next hgl =>
    rw [hgl] at ha
    simp only [Option.isSome_none, Bool.false_or] at ha
    obtain ⟨v, hv⟩ := Option.isSome_iff_exists.mp ha
    rw [hv]
    simpa using hc _ (alookup_mem hv)

lemma interpDesired_ge {s e t : ℚ} (hs : LEFT_PADDING ≤ s) (he : LEFT_PADDING ≤ e)
    (h0 : 0 ≤ t) (h1 : t ≤ 1) : LEFT_PADDING ≤ interpDesired s e t := by
  unfold interpDesired
  simp only [LEFT_PADDING] at hs he ⊢
  nlinarith [mul_nonneg (by linarith : (0:ℚ) ≤ s - 5) (by linarith : (0:ℚ) ≤ 1 - t),
    mul_nonneg (by linarith : (0:ℚ) ≤ e - 5) h0]

lemma localDesired_ge (stopsData : List (String × String)) (gp ca : List (String × ℚ))
    (routeStops : List String) (stopIndex : Nat)
    (hg : ∀ e ∈ gp, LEFT_PADDING ≤ e.2) (hc : ∀ e ∈ ca, LEFT_PADDING ≤ e.2) :
    LEFT_PADDING ≤ localDesired stopsData gp ca routeStops stopIndex := by
  unfold localDesired
  split
  · next b f hb hf =>
    have hbs := findAnchorBack_spec hb
    have hfs := findAnchorFwd_spec hf
    have hbf : b < f := lt_trans hbs.2 hfs.2
    have hden : (0:ℚ) < (f:ℚ) - (b:ℚ) := by
      have hq : (b:ℚ) < (f:ℚ) := by exact_mod_cast hbf
      linarith
    have hnum : (0:ℚ) ≤ (stopIndex:ℚ) - (b:ℚ) := by
      have hq : (b:ℚ) ≤ (stopIndex:ℚ) := by exact_mod_cast le_of_lt hbs.2
      linarith
    have hle : (stopIndex:ℚ) - (b:ℚ) ≤ (f:ℚ) - (b:ℚ) := by
      have hq : (stopIndex:ℚ) ≤ (f:ℚ) := by exact_mod_cast le_of_lt hfs.2
      linarith
    exact interpDesired_ge (getAnchorPos_ge hg hc hbs.1) (getAnchorPos_ge hg hc hfs.1)
      (div_nonneg hnum (le_of_lt hden)) ((div_le_one hden).mpr hle)
  · next b hb _ =>
    have hbs := findAnchorBack_spec hb
    have hbase := getAnchorPos_ge hg hc hbs.1
    apply le_min
    · have hnum : (0:ℚ) ≤ (stopIndex:ℚ) - (b:ℚ) := by
        have hq : (b:ℚ) ≤ (stopIndex:ℚ) := by exact_mod_cast le_of_lt hbs.2
        linarith
      have : (0:ℚ) ≤ ((stopIndex:ℚ) - (b:ℚ)) * MIN_SPACING_INDEPENDENT := by
        apply mul_nonneg hnum
        norm_num [MIN_SPACING_INDEPENDENT]
      linarith
    · norm_num [LEFT_PADDING]
  · next f _ hf =>
    exact le_max_right _ _
  · next _ _ =>
    split_ifs
    · have : (0:ℚ) ≤ (stopIndex : ℚ) * MIN_SPACING_INDEPENDENT := by
        unfold MIN_SPACING_INDEPENDENT
        positivity
      linarith
    · have : (0:ℚ) ≤ ((stopIndex : ℚ) / ((max (routeStops.length - 1) 1 : Nat) : ℚ)) *
          usableWidth := by
        norm_num [usableWidth, LEFT_PADDING, RIGHT_PADDING]
        positivity
      linarith

lemma routeStopStep_ge (stopsData : List (String × String))
    (crossAssoc gp : List (String × ℚ)) (routeStops : List String)
    (st : RouteState) (p : Nat × String)
    (hc : ∀ e ∈ crossAssoc, LEFT_PADDING ≤ e.2) (hg : ∀ e ∈ gp, LEFT_PADDING ≤ e.2)
    (hst : (∀ e ∈ st.spm, LEFT_PADDING ≤ e.2.position)
      ∧ (∀ e ∈ st.global, LEFT_PADDING ≤ e.2)) :
    (∀ e ∈ (routeStopStep stopsData crossAssoc gp routeStops st p).spm,
      LEFT_PADDING ≤ e.2.position)
    ∧ (∀ e ∈ (routeStopStep stopsData crossAssoc gp routeStops st p).global,
      LEFT_PADDING ≤ e.2) := by
  simp only [routeStopStep]
  split_ifs with hskip
  · exact hst
  · split
    · next pos hcl =>
      refine ⟨?_, hst.2⟩
      intro e he
      rcases List.mem_append.mp he with he2 | he2
      · exact hst.1 e he2
      · simp only [List.mem_singleton] at he2
        subst he2
        exact hc _ (alookup_mem hcl)
    · next hcl =>
      split
      · next pos hgl =>
        refine ⟨?_, hst.2⟩
        intro e he
        rcases List.mem_append.mp he with he2 | he2
        · exact hst.1 e he2
        · simp only [List.mem_singleton] at he2
          subst he2
          exact hg _ (alookup_mem hgl)
      · next hgl =>
        have hused : ∀ u ∈ st.global.map (fun e => e.2), LEFT_PADDING ≤ u := by
          intro u hu
          obtain ⟨e0, he0, rfl⟩ := List.mem_map.mp hu
          exact hst.2 e0 he0
        have hpos : LEFT_PADDING ≤ findAvailablePosition
            (localDesired stopsData gp crossAssoc routeStops p.1)
            (st.global.map (fun e => e.2)) :=
          findAvailLoop_ge _ _ (localDesired_ge stopsData gp crossAssoc routeStops p.1 hg hc)
            hused
        refine ⟨?_, ?_⟩
        · intro e he
          rcases List.mem_append.mp he with he2 | he2
          · exact hst.1 e he2
          · simp only [List.mem_singleton] at he2
            subst he2
            exact hpos
        · intro e he
          rcases mem_mapSet he with ⟨_, h2⟩ | he2
          · rw [h2]; exact hpos
          · exact hst.2 e he2

lemma assignRoutes_ge (routes : List Route) (orderedStops : List String)
    (currentStopId : String) (stopsData : List (String × String))
    (crossAssoc : List (String × ℚ)) (groups : List (List Nat))
    (groupAssocs : List (List (String × ℚ))) (global0 : List (String × ℚ))
    (hc : ∀ e ∈ crossAssoc, LEFT_PADDING ≤ e.2)
    (hga : ∀ a ∈ groupAssocs, ∀ e ∈ a, LEFT_PADDING ≤ e.2)
    (hg0 : ∀ e ∈ global0, LEFT_PADDING ≤ e.2) :
    ∀ e ∈ (assignRoutes routes orderedStops currentStopId stopsData crossAssoc groups
        groupAssocs global0).spm, LEFT_PADDING ≤ e.2.position := by
  unfold assignRoutes
  have h := foldl_rec (P := fun st : RouteState =>
      (∀ e ∈ st.spm, LEFT_PADDING ≤ e.2.position) ∧ (∀ e ∈ st.global, LEFT_PADDING ≤ e.2))
    (fun st p =>
      (routeStopsOf orderedStops currentStopId p.2).enum.foldl
        (routeStopStep stopsData crossAssoc
          (match findGroupIdx p.1 0 groups with
           | some gi => groupAssocs.getD gi []
           | none => []) (routeStopsOf orderedStops currentStopId p.2)) st)
    routes.enum ⟨[], global0⟩ ⟨by simp, hg0⟩ ?_
  · exact h.1
  · intro st p _ hst
    have hgp : ∀ e ∈ (match findGroupIdx p.1 0 groups with
        | some gi => groupAssocs.getD gi []
        | none => []), LEFT_PADDING ≤ e.2 := by
      intro e he
      split at he
      · next gi _ =>
        rw [List.getD_eq_getElem?_getD] at he
        cases hq : groupAssocs[gi]? with
        | some a =>
          rw [hq] at he
          simp only [Option.getD_some] at he
          exact hga a (List.getElem?_mem hq) e he
        | none =>
          rw [hq] at he
          simp at he
      · next _ => simp at he
    exact foldl_rec _ _ st hst
      (fun st2 q _ hst2 =>
        routeStopStep_ge stopsData crossAssoc _ _ st2 q hc hgp hst2)

lemma preNorm_parts_ge (routes : List Route) (orderedStops : List String)
    (currentStopId : String) (stopsData : List (String × String))
    (n2r : List (String × List Nat)) (cross : List String)
    (groups : List (List Nat)) (crossNames : List String) :
    ∀ e ∈ (assignRoutes routes orderedStops currentStopId stopsData
        (assignCross crossNames).crossAssoc groups
        (assignGroups orderedStops currentStopId stopsData n2r cross groups
          (independentStartPos crossNames (assignCross crossNames).crossAssoc)
          (dedupKeepFirst ((assignCross crossNames).global.map (fun e => e.2)))
          (assignCross crossNames).global).assocs
        (assignGroups orderedStops currentStopId stopsData n2r cross groups
          (independentStartPos crossNames (assignCross crossNames).crossAssoc)
          (dedupKeepFirst ((assignCross crossNames).global.map (fun e => e.2)))
          (assignCross crossNames).global).global).spm,
      LEFT_PADDING ≤ e.2.position := by
  intro e he
  have hcross := assignCross_ge crossNames
  have hstart := independentStartPos_bounds crossNames (assignCross crossNames).crossAssoc
    hcross.1
  have hcp : ∀ u ∈ dedupKeepFirst ((assignCross crossNames).global.map (fun e => e.2)),
      LEFT_PADDING ≤ u := by
    intro u hu
    obtain ⟨e0, he0, rfl⟩ := List.mem_map.mp (mem_dedupKeepFirst hu)
    exact hcross.2.2 e0 he0
  have hgst := assignGroups_ge orderedStops currentStopId stopsData n2r cross groups _ _ _
    hcp hstart.1 hstart.2 hcross.2.2
  exact assignRoutes_ge routes orderedStops currentStopId stopsData _ groups _ _
    hcross.1 hgst.1 hgst.2 e he

lemma preNormMap_ge (routes : List Route) (orderedStops : List String)
    (currentStopId : String) (stopsData : List (String × String)) :
    ∀ e ∈ preNormMap routes orderedStops currentStopId stopsData,
      LEFT_PADDING ≤ e.2.position := by
  intro e he
  exact preNorm_parts_ge routes orderedStops currentStopId stopsData
    (nameToRoutesOf routes orderedStops currentStopId stopsData)
    (crossGroupStopsOf (nameToRoutesOf routes orderedStops currentStopId stopsData)
      (universalsOf (nameToRoutesOf routes orderedStops currentStopId stopsData) routes.length)
      (mergeGroups (nameToRoutesOf routes orderedStops currentStopId stopsData) routes.length
        (universalsOf (nameToRoutesOf routes orderedStops currentStopId stopsData)
          routes.length)))
    (mergeGroups (nameToRoutesOf routes orderedStops currentStopId stopsData) routes.length
      (universalsOf (nameToRoutesOf routes orderedStops currentStopId stopsData) routes.length))
    (orderedCrossNamesOf orderedStops currentStopId stopsData
      (crossGroupStopsOf (nameToRoutesOf routes orderedStops currentStopId stopsData)
        (universalsOf (nameToRoutesOf routes orderedStops currentStopId stopsData) routes.length)
        (mergeGroups (nameToRoutesOf routes orderedStops currentStopId stopsData) routes.length
          (universalsOf (nameToRoutesOf routes orderedStops currentStopId stopsData)
            routes.length))))
    e he

lemma normFun_ge {ps : List ℚ} {p : ℚ} (h5 : ∀ q ∈ ps, LEFT_PADDING ≤ q) (hp : p ∈ ps) :
    LEFT_PADDING ≤ normFun ps p := by
  have hpm : listMin ps ≤ p := listMin_le hp
  have hp5 : (5:ℚ) ≤ p := by
    have := h5 p hp
    simpa [LEFT_PADDING] using this
  simp only [normFun, LEFT_PADDING, RIGHT_PADDING]
  split_ifs with hc hm hm
  · have hk : (0:ℚ) < (100 - 10 - 5) / (listMax ps - 5) := by
      apply div_pos (by norm_num)
      linarith [hc.2]
    nlinarith [mul_nonneg (show (0:ℚ) ≤ p + (5 - listMin ps) - 5 by linarith) (le_of_lt hk)]
  · have hk : (0:ℚ) < (100 - 10 - 5) / (listMax ps - 5) := by
      apply div_pos (by norm_num)
      linarith [hc.2]
    nlinarith [mul_nonneg (show (0:ℚ) ≤ p - 5 by linarith) (le_of_lt hk)]
  · linarith
  · exact hp5

lemma createStopPositionMap_eq (routes : List Route) (orderedStops : List String)
    (currentStopId : String) (stopsData : List (String × String)) :
    createStopPositionMap routes orderedStops currentStopId stopsData =
      if ((preNormMap routes orderedStops currentStopId stopsData).map
          (fun e => e.2.position)).isEmpty then
        preNormMap routes orderedStops currentStopId stopsData
      else (preNormMap routes orderedStops currentStopId stopsData).map
        (fun e => (e.1, ⟨normFun ((preNormMap routes orderedStops currentStopId
          stopsData).map (fun e => e.2.position)) e.2.position, e.2.isCommon⟩)) := rfl

lemma mem_universalsOf {n2r : List (String × List Nat)} {n : String} {rs : List Nat}
    {numRoutes : Nat} (h : (n, rs) ∈ n2r) (hlen : rs.length = numRoutes) :
    n ∈ universalsOf n2r numRoutes := by
  induction n2r with
  | nil => simp at h
  | cons p t ih =>
    simp only [List.mem_cons] at h
    rcases h with rfl | h
    · simp only [universalsOf]
      rw [if_pos (show (n, rs).2.length = numRoutes by simpa using hlen)]
      exact List.mem_cons_self _ _
    · simp only [universalsOf]
      split_ifs
      · exact List.mem_cons_of_mem _ (ih h)
      · exact ih h

lemma universal_subset_cross {n2r : List (String × List Nat)} {universal : List String}
    {groups : List (List Nat)} {n : String} (h : n ∈ universal) :
    n ∈ crossGroupStopsOf n2r universal groups := by
  unfold crossGroupStopsOf
  exact foldl_rec (P := fun acc : List String => n ∈ acc) _ n2r universal h
    (fun acc p _ hacc => by
      split_ifs
      · exact hacc
      · exact mem_setAdd_of_mem _ hacc
      · exact hacc)

lemma mem_orderedCrossNamesOf_aux (currentStopId : String)
    (stopsData : List (String × String)) (cross : List String) (n : String) :
    ∀ (l : List String) (acc : List String),
      (n ∈ acc ∨ ∃ id ∈ l, id ≠ currentStopId ∧ getStopName stopsData id = n ∧ n ∈ cross) →
      n ∈ l.foldl
        (fun acc stopId =>
          if stopId = currentStopId then acc
          else
            let name := getStopName stopsData stopId
            if name ∈ cross ∧ name ∉ acc then acc ++ [name] else acc)
        acc := by
  intro l
  induction l with
  | nil =>
    intro acc h
    rcases h with h | ⟨id, hid, _⟩
    · simpa using h
    · simp at hid
  | cons a t ih =>
    intro acc h
    simp only [List.foldl_cons]
    apply ih
    rcases h with h | ⟨id, hid, hne, hname, hcr⟩
    · left
      split_ifs with h1 h2
      · exact h
      · exact List.mem_append_left _ h
      · exact h
    · simp only [List.mem_cons] at hid
      rcases hid with rfl | hid
      · left
        split_ifs with h1 h2
        · exact absurd h1 hne
        · rw [hname]
          simp
        · rw [hname] at h2
          rcases not_and_or.mp h2 with h3 | h3
          · exact absurd hcr h3
          · exact not_not.mp h3
      · exact Or.inr ⟨id, hid, hne, hname, hcr⟩

lemma mem_orderedCrossNamesOf {orderedStops : List String} {currentStopId : String}
    {stopsData : List (String × String)} {cross : List String} {id : String}
    (hid : id ∈ orderedStops) (hne : id ≠ currentStopId)
    (hcr : getStopName stopsData id ∈ cross) :
    getStopName stopsData id ∈
      orderedCrossNamesOf orderedStops currentStopId stopsData cross := by
  unfold orderedCrossNamesOf
  exact mem_orderedCrossNamesOf_aux currentStopId stopsData cross _ orderedStops []
    (Or.inr ⟨id, hid, hne, rfl, hcr⟩)

lemma assignCross_fold_keys (N : Nat) :
    ∀ (l : List (Nat × String)) (st : CrossState),
      ((l.foldl
        (fun st p =>
          let desired := crossDesired N p.1
          let pos := findAvailablePosition desired st.used
          { crossAssoc := st.crossAssoc ++ [(p.2, pos)],
            used := setAdd st.used pos,
            global := mapSet st.global p.2 pos }) st).crossAssoc).map Prod.fst =
      st.crossAssoc.map Prod.fst ++ l.map Prod.snd := by
  intro l
  induction l with
  | nil => intro st; simp
  | cons p t ih =>
    intro st
    simp only [List.foldl_cons, List.map_cons]
    rw [ih]
    simp

lemma assignCross_keys (names : List String) :
    ((assignCross names).crossAssoc).map Prod.fst = names := by
  unfold assignCross
  rw [assignCross_fold_keys names.length names.enum ⟨[], [], []⟩]
  simp [List.enum_map_snd]

lemma assignCross_lookup_isSome {names : List String} {n : String} (h : n ∈ names) :
    (alookup (assignCross names).crossAssoc n).isSome :=
  alookup_isSome_of_mem_keys (by rw [assignCross_keys]; exact h)

lemma routeStopStep_cross_value (stopsData : List (String × String))
    (crossAssoc gp : List (String × ℚ)) (routeStops : List String)
    (st : RouteState) (p : Nat × String) (n : String) (pos : ℚ)
    (hl : alookup crossAssoc n = some pos)
    (hst : ∀ id sp, (id, sp) ∈ st.spm → getStopName stopsData id = n → sp = ⟨pos, true⟩) :
    ∀ id sp, (id, sp) ∈ (routeStopStep stopsData crossAssoc gp routeStops st p).spm →
      getStopName stopsData id = n → sp = ⟨pos, true⟩ := by
  simp only [routeStopStep]
  split_ifs with hskip
  · exact hst
  · split
    · next pos2 hcl =>
      intro id sp hmem hname
      rcases List.mem_append.mp hmem with he2 | he2
      · exact hst id sp he2 hname
      · simp only [List.mem_singleton, Prod.mk.injEq] at he2
        obtain ⟨rfl, rfl⟩ := he2
        rw [hname] at hcl
        rw [hl] at hcl
        injection hcl with h2
        rw [← h2]
    · next hcl =>
      split
      · next pos2 hgl =>
        intro id sp hmem hname
        rcases List.mem_append.mp hmem with he2 | he2
        · exact hst id sp he2 hname
        · simp only [List.mem_singleton, Prod.mk.injEq] at he2
          obtain ⟨rfl, rfl⟩ := he2
          rw [hname] at hcl
          rw [hl] at hcl
          simp at hcl
      · next hgl =>
        intro id sp hmem hname
        rcases List.mem_append.mp hmem with he2 | he2
        · exact hst id sp he2 hname
        · simp only [List.mem_singleton, Prod.mk.injEq] at he2
          obtain ⟨rfl, rfl⟩ := he2
          rw [hname] at hcl
          rw [hl] at hcl
          simp at hcl

lemma assignRoutes_cross_value (routes : List Route) (orderedStops : List String)
    (currentStopId : String) (stopsData : List (String × String))
    (crossAssoc : List (String × ℚ)) (groups : List (List Nat))
    (groupAssocs : List (List (String × ℚ))) (global0 : List (String × ℚ))
    (n : String) (pos : ℚ) (hl : alookup crossAssoc n = some pos) :
    ∀ id sp, (id, sp) ∈ (assignRoutes routes orderedStops currentStopId stopsData
      crossAssoc groups groupAssocs global0).spm →
      getStopName stopsData id = n → sp = ⟨pos, true⟩ := by
  unfold assignRoutes
  have h := foldl_rec (P := fun st : RouteState =>
      ∀ id sp, (id, sp) ∈ st.spm → getStopName stopsData id = n → sp = ⟨pos, true⟩)
    (fun st p =>
      (routeStopsOf orderedStops currentStopId p.2).enum.foldl
        (routeStopStep stopsData crossAssoc
          (match findGroupIdx p.1 0 groups with
           | some gi => groupAssocs.getD gi []
           | none => []) (routeStopsOf orderedStops currentStopId p.2)) st)
    routes.enum ⟨[], global0⟩ (by simp) ?_
  · exact h
  · intro st p _ hst
    exact foldl_rec _ _ st hst
      (fun st2 q _ hst2 =>
        routeStopStep_cross_value stopsData crossAssoc _ _ st2 q n pos hl hst2)

lemma mem_routeStopsOf {orderedStops : List String} {currentStopId : String} {r : Route}
    {id : String} (h : id ∈ routeStopsOf orderedStops currentStopId r) :
    id ∈ orderedStops ∧ id ≠ currentStopId := by
  induction orderedStops with
  | nil => simp [routeStopsOf] at h
  | cons a t ih =>
    simp only [routeStopsOf] at h
    split_ifs at h with hc
    · rcases List.mem_cons.mp h with rfl | h2
      · exact ⟨List.mem_cons_self _ _, hc.1⟩
      · obtain ⟨h3, h4⟩ := ih h2
        exact ⟨List.mem_cons_of_mem _ h3, h4⟩
    · obtain ⟨h3, h4⟩ := ih h
      exact ⟨List.mem_cons_of_mem _ h3, h4⟩

lemma snd_mem_of_mem_enum {α : Type} {l : List α} {p : Nat × α} (h : p ∈ l.enum) :
    p.2 ∈ l := by
  have h2 := List.mem_map_of_mem Prod.snd h
  rwa [List.enum_map_snd] at h2

lemma routeStopStep_ids (stopsData : List (String × String))
    (crossAssoc gp : List (String × ℚ)) (routeStops : List String)
    (orderedStops : List String) (currentStopId : String)
    (st : RouteState) (p : Nat × String)
    (hp : p.2 ∈ orderedStops ∧ p.2 ≠ currentStopId)
    (hst : ∀ id sp, (id, sp) ∈ st.spm → id ∈ orderedStops ∧ id ≠ currentStopId) :
    ∀ id sp, (id, sp) ∈ (routeStopStep stopsData crossAssoc gp routeStops st p).spm →
      id ∈ orderedStops ∧ id ≠ currentStopId := by
  simp only [routeStopStep]
  split_ifs with hskip
  · exact hst
  · split
    · next pos2 hcl =>
      intro id sp hmem
      rcases List.mem_append.mp hmem with he2 | he2
      · exact hst id sp he2
      · simp only [List.mem_singleton, Prod.mk.injEq] at he2
        obtain ⟨rfl, rfl⟩ := he2
        exact hp
    · next hcl =>
      split
      · next pos2 hgl =>
        intro id sp hmem
        rcases List.mem_append.mp hmem with he2 | he2
        · exact hst id sp he2
        · simp only [List.mem_singleton, Prod.mk.injEq] at he2
          obtain ⟨rfl, rfl⟩ := he2
          exact hp
      · next hgl =>
        intro id sp hmem
        rcases List.mem_append.mp hmem with he2 | he2
        · exact hst id sp he2
        · simp only [List.mem_singleton, Prod.mk.injEq] at he2
          obtain ⟨rfl, rfl⟩ := he2
          exact hp

lemma assignRoutes_ids (routes : List Route) (orderedStops : List String)
    (currentStopId : String) (stopsData : List (String × String))
    (crossAssoc : List (String × ℚ)) (groups : List (List Nat))
    (groupAssocs : List (List (String × ℚ))) (global0 : List (String × ℚ)) :
    ∀ id sp, (id, sp) ∈ (assignRoutes routes orderedStops currentStopId stopsData
      crossAssoc groups groupAssocs global0).spm →
      id ∈ orderedStops ∧ id ≠ currentStopId := by
  unfold assignRoutes
  have h := foldl_rec (P := fun st : RouteState =>
      ∀ id sp, (id, sp) ∈ st.spm → id ∈ orderedStops ∧ id ≠ currentStopId)
    (fun st p =>
      (routeStopsOf orderedStops currentStopId p.2).enum.foldl
        (routeStopStep stopsData crossAssoc
          (match findGroupIdx p.1 0 groups with
           | some gi => groupAssocs.getD gi []
           | none => []) (routeStopsOf orderedStops currentStopId p.2)) st)
    routes.enum ⟨[], global0⟩ (by simp) ?_
  · exact h
  · intro st p _ hst
    exact foldl_rec _ _ st hst
      (fun st2 q hq hst2 =>
        routeStopStep_ids stopsData crossAssoc _ _ orderedStops currentStopId st2 q
          (mem_routeStopsOf (snd_mem_of_mem_enum hq)) hst2)

lemma preNormMap_cross_value (routes : List Route) (orderedStops : List String)
    (currentStopId : String) (stopsData : List (String × String)) (n : String) (pos : ℚ)
    (hl : alookup (assignCross (orderedCrossNamesOf orderedStops currentStopId stopsData
        (crossGroupStopsOf (nameToRoutesOf routes orderedStops currentStopId stopsData)
          (universalsOf (nameToRoutesOf routes orderedStops currentStopId stopsData)
            routes.length)
          (mergeGroups (nameToRoutesOf routes orderedStops currentStopId stopsData)
            routes.length
            (universalsOf (nameToRoutesOf routes orderedStops currentStopId stopsData)
              routes.length))))).crossAssoc n = some pos) :
    ∀ id sp, (id, sp) ∈ preNormMap routes orderedStops currentStopId stopsData →
      getStopName stopsData id = n → sp = ⟨pos, true⟩ := by
  intro id sp hmem hname
  exact assignRoutes_cross_value routes orderedStops currentStopId stopsData _ _ _ _ n pos hl
    id sp hmem hname

lemma preNormMap_ids (routes : List Route) (orderedStops : List String)
    (currentStopId : String) (stopsData : List (String × String)) :
    ∀ id sp, (id, sp) ∈ preNormMap routes orderedStops currentStopId stopsData →
      id ∈ orderedStops ∧ id ≠ currentStopId := by
  intro id sp hmem
  exact assignRoutes_ids routes orderedStops currentStopId stopsData _ _ _ _ id sp hmem

lemma selectMajorStops_nil (rankingData : String → ℚ) (target : Nat) :
    selectMajorStops [] rankingData [] none target = [] := rfl

lemma strCmpInt_ne_zero {a b : String} (h : a ≠ b) : strCmpInt a b ≠ 0 := by
  unfold strCmpInt
  split_ifs with h1 <;> norm_num

lemma groupCmpAux_firstDiff (cnt : Nat → String → Nat) (fb : Int) (na nb : String)
    (hne : na ≠ nb) :
    ∀ (pre : List String) (i : Nat) (la lb : List String),
      groupCmpAux cnt fb i (pre ++ na :: la) (pre ++ nb :: lb) =
        if cnt (i + pre.length) na ≠ cnt (i + pre.length) nb then
          (cnt (i + pre.length) nb : Int) - (cnt (i + pre.length) na : Int)
        else strCmpInt na nb := by
  intro pre
  induction pre with
  | nil =>
    intro i la lb
    simp only [List.nil_append, List.length_nil, Nat.add_zero, groupCmpAux]
    rw [if_neg hne]
    by_cases hc : cnt i na = cnt i nb
    · rw [if_neg (show ¬ (((cnt i na : Nat) : Int) ≠ ((cnt i nb : Nat) : Int)) by simp [hc]),
        if_pos (strCmpInt_ne_zero hne),
        if_neg (show ¬ (cnt i na ≠ cnt i nb) by simp [hc])]
    · rw [if_pos (show ((cnt i na : Nat) : Int) ≠ ((cnt i nb : Nat) : Int) by
          exact_mod_cast hc),
        if_pos hc]
  | cons x pre ih =>
    intro i la lb
    simp only [List.cons_append, groupCmpAux, eq_self_iff_true, if_true, List.append_eq]
    rw [ih (i + 1) la lb]
    simp only [List.length_cons]
    rw [show i + 1 + pre.length = i + (pre.length + 1) from by omega]

lemma groupCmpAux_refl (cnt : Nat → String → Nat) (fb : Int) :
    ∀ (l : List String) (i : Nat), groupCmpAux cnt fb i l l = fb := by
  intro l
  induction l with
  | nil => intro i; rfl
  | cons x t ih =>
    intro i
    simp only [groupCmpAux, eq_self_iff_true, if_true]
    exact ih (i + 1)

lemma ratAbs_le_of_bounds {d c : ℚ} (h1 : -c ≤ d) (h2 : d ≤ c) : ratAbs d ≤ c := by
  unfold ratAbs
  split_ifs with h
  · linarith
  · exact h2

lemma clamp_drift {orig p c : ℚ} (h100 : orig ≤ 100) (hc : 0 ≤ c) :
    ratAbs (min (min (orig + c) 100) (max (max (orig - c) 0) p) - orig) ≤ c := by
  apply ratAbs_le_of_bounds
  · have hA : orig - c ≤ min (orig + c) 100 := le_min (by linarith) (by linarith)
    have hB : orig - c ≤ max (max (orig - c) 0) p :=
      le_trans (le_max_left _ _) (le_max_left _ _)
    have := le_min hA hB
    linarith
  · have h1 := min_le_left (min (orig + c) 100) (max (max (orig - c) 0) p)
    have h2 := min_le_left (orig + c) 100
    linarith

lemma resolvePair_drift (proj dW : ℚ) (cur nxt : Label)
    (h100 : nxt.originalX ≤ 100)
    (hx : ratAbs (nxt.x - nxt.originalX) ≤ MAX_DRIFT_PERCENT) :
    ratAbs ((resolvePair proj dW cur nxt).x - (resolvePair proj dW cur nxt).originalX) ≤
      MAX_DRIFT_PERCENT := by
  simp only [resolvePair]
  split_ifs with hc
  · dsimp only
    exact clamp_drift h100 (by norm_num [MAX_DRIFT_PERCENT])
  · exact hx

lemma resolvePass_drift (proj dW : ℚ) :
    ∀ (rest : List Label) (cur : Label),
      ratAbs (cur.x - cur.originalX) ≤ MAX_DRIFT_PERCENT →
      (∀ l ∈ rest, ratAbs (l.x - l.originalX) ≤ MAX_DRIFT_PERCENT ∧ l.originalX ≤ 100) →
      ∀ l ∈ resolvePass proj dW cur rest,
        ratAbs (l.x - l.originalX) ≤ MAX_DRIFT_PERCENT := by
  intro rest
  induction rest with
  | nil =>
    intro cur hcur _ l hl
    simp only [resolvePass, List.mem_singleton] at hl
    subst hl
    exact hcur
  | cons nxt t ih =>
    intro cur hcur hrest l hl
    simp only [resolvePass, List.mem_cons] at hl
    rcases hl with rfl | hl
    · exact hcur
    · have hn := hrest nxt (List.mem_cons_self _ _)
      refine ih (resolvePair proj dW cur nxt) ?_ ?_ l hl
      · exact resolvePair_drift proj dW cur nxt hn.2 hn.1
      · intro m hm
        -- resolvePair keeps the originalX of every later label untouched
        exact hrest m (List.mem_cons_of_mem _ hm)

lemma evalC8_resolve :
    resolveLabelOverlaps cosLabelAngle 100
      [⟨"A", 50, 50, 0⟩, ⟨"A", 50, 50, 10⟩] =
      [⟨"A", 50, 50, 0⟩, ⟨"A", 65, 50, 10⟩] := by
  have hlen : ("A" : String).length = 1 := by decide
  norm_num +decide [resolveLabelOverlaps, sortBy, stableInsert, labelLE, resolvePass,
    resolvePair, xScale, projWidth, estimateWidth, cosLabelAngle, ROUTE_LABEL_WIDTH,
    MAX_DRIFT_PERCENT, hlen]

lemma findRoutes_ids_sublist (stopId : String) :
    ∀ servicesData : List (String × ServiceData),
      ((findRoutesForStop stopId servicesData).map (fun r => r.routeId)).Sublist
        (servicesData.map Prod.fst) := by
  intro sd
  induction sd with
  | nil => simp [findRoutesForStop]
  | cons p rest ih =>
    simp only [findRoutesForStop, List.filterMap_cons]
    cases hfd : findDest stopId p.2.dests with
    | none =>
      simp only [hfd, Option.map_none']
      exact ih.cons _
    | some d =>
      simp only [hfd, Option.map_some', List.map_cons]
      exact ih.cons₂ _

lemma findDest_first_match (stopId : String) :
    ∀ (dests : List ServiceDest) (d : ServiceDest),
      findDest stopId dests = some d ↔
        ∃ pre post, dests = pre ++ d :: post ∧
          (∀ d2 ∈ pre, ¬ ∃ seq ∈ d2.sequences, stopId ∈ seq) ∧
          ∃ seq ∈ d.sequences, stopId ∈ seq := by
  intro dests
  induction dests with
  | nil =>
    intro d
    constructor
    · intro h
      simp [findDest] at h
    · rintro ⟨pre, post, heq, -, -⟩
      exact absurd heq (by simp)
  | cons d0 rest ih =>
    intro d
    simp only [findDest]
    split_ifs with hd0
    · constructor
      · intro h
        obtain rfl : d0 = d := by injection h
        exact ⟨[], rest, rfl, by simp, hd0⟩
      · rintro ⟨pre, post, heq, hpre, hd⟩
        cases pre with
        | nil =>
          simp only [List.nil_append, List.cons.injEq] at heq
          rw [heq.1]
        | cons q pre2 =>
          simp only [List.cons_append, List.cons.injEq] at heq
          exact absurd (heq.1 ▸ hd0) (hpre q (List.mem_cons_self _ _))
    · rw [ih d]
      constructor
      · rintro ⟨pre, post, heq, hpre, hd⟩
        refine ⟨d0 :: pre, post, by rw [heq, List.cons_append], ?_, hd⟩
        intro d2 h2
        rcases List.mem_cons.mp h2 with rfl | h2
        · exact hd0
        · exact hpre d2 h2
      · rintro ⟨pre, post, heq, hpre, hd⟩
        cases pre with
        | nil =>
          simp only [List.nil_append, List.cons.injEq] at heq
          exact absurd (heq.1 ▸ hd) hd0
        | cons q pre2 =>
          simp only [List.cons_append, List.cons.injEq] at heq
          refine ⟨pre2, post, heq.2, ?_, hd⟩
          intro d2 h2
          exact hpre d2 (List.mem_cons_of_mem _ h2)

lemma selectLoopC_mono (m : Nat) :
    ∀ (l : List RankedStop) (acc : List String) (x : String),
      x ∈ acc → x ∈ selectLoopC m l acc := by
  intro l
  induction l with
  | nil => intro acc x hx; simpa [selectLoopC] using hx
  | cons st rest ih =>
    intro acc x hx
    simp only [selectLoopC]
    split_ifs with hm
    · exact hx
    · exact ih (setAdd acc st.stopId) x (mem_setAdd_of_mem _ hx)

lemma selectLoopC_post (m : Nat) :
    ∀ (l : List RankedStop) (acc : List String),
      m ≤ (selectLoopC m l acc).length ∨
        ∀ st ∈ l, st.stopId ∈ selectLoopC m l acc := by
  intro l
  induction l with
  | nil => intro acc; right; simp
  | cons st rest ih =>
    intro acc
    simp only [selectLoopC]
    split_ifs with hm
    · exact Or.inl hm
    · rcases ih (setAdd acc st.stopId) with h | h
      · exact Or.inl h
      · right
        intro st2 h2
        rcases List.mem_cons.mp h2 with rfl | h2
        · exact selectLoopC_mono m rest (setAdd acc st2.stopId) st2.stopId
            (mem_setAdd_self _ _)
        · exact h st2 h2

/-! ### Claims -/

/-- Claim C1, counterexample: a run of createStopPositionMap on three
routes (g shared by the first two, z local to the second, the third route
displaying nothing) where the pre normalization positions are 20 and 25: a
shift runs, but the scale factor is computed from the stale pre shift
maximum, so the final maximum is 105/4 and not 100 minus the right
padding; the claim that normalization always pins the maximum to
100 - rightPad is false. -/
theorem C1_counterexample :
    positionsOf (createStopPositionMap
        [⟨"r0", ["c","g"], none⟩, ⟨"r1", ["c","g","z"], none⟩, ⟨"r2", ["c","p"], none⟩]
        ["c","g","z"] "c" []) = [5, 105/4]
    ∧ listMin [(5:ℚ), 105/4] = LEFT_PADDING
    ∧ listMax [(5:ℚ), 105/4] ≠ 100 - RIGHT_PADDING := by
  refine ⟨?_, by norm_num [listMin, LEFT_PADDING], by norm_num [listMax, RIGHT_PADDING]⟩
  rw [positionsOf, evalC1_map]
  norm_num

/-- Claim C1, amended: for a non empty position list all of whose entries
are at least the left padding (which holds for every list the pipeline
produces), the normalization step pins the minimum used position to the
left padding and preserves relative order; the maximum is pinned to
100 minus the right padding exactly when no shift was needed (the pre
normalization minimum already equals the left padding) and the pre
normalization maximum lies strictly between the left padding and
100 minus the right padding, because the scale condition and factor are
computed from the pre shift snapshot. -/
theorem C1_normalization_amended (ps : List ℚ) (hne : ps ≠ [])
    (h5 : ∀ p ∈ ps, LEFT_PADDING ≤ p) :
    listMin (normalizePositions ps) = LEFT_PADDING
    ∧ (∀ a b : ℚ, a ≤ b → normFun ps a ≤ normFun ps b)
    ∧ (listMin ps = LEFT_PADDING → LEFT_PADDING < listMax ps →
        listMax ps < 100 - RIGHT_PADDING →
        listMax (normalizePositions ps) = 100 - RIGHT_PADDING) := by
  have hmap : normalizePositions ps = ps.map (normFun ps) := by
    cases ps with
    | nil => exact absurd rfl hne
    | cons x xs => rfl
  refine ⟨?_, fun a b hab => normFun_monotone ps hab, fun hmn h1 h2 => ?_⟩
  · rw [hmap, listMin_map_mono (normFun_monotone ps) hne, normFun_at_min ps hne h5]
  · rw [hmap, listMax_map_mono (normFun_monotone ps) hne, normFun_at_max ps hmn h1 h2]

/-- Witness for the amended claim C1 at the concrete list [5, 10]. -/
theorem C1_witness :
    listMin (normalizePositions [5, 10]) = LEFT_PADDING
    ∧ listMax (normalizePositions [5, 10]) = 100 - RIGHT_PADDING := by
  have h := C1_normalization_amended [5, 10] (by simp)
    (by
      intro p hp
      rcases List.mem_cons.mp hp with rfl | hp2
      · norm_num [LEFT_PADDING]
      · simp only [List.mem_singleton] at hp2
        subst hp2
        norm_num [LEFT_PADDING])
  refine ⟨h.1, h.2.2 ?_ ?_ ?_⟩
  · norm_num [listMin, LEFT_PADDING]
  · norm_num [listMax, LEFT_PADDING]
  · norm_num [listMax, RIGHT_PADDING]

/-- Claim C2, counterexample: with six universal names the cross block
ends at 90, the group of the two routes sharing g1 and g2 starts at the
clamped position 90, and g2 receives the unchecked desired position
90 + 15 = 105: a final position strictly above 100 minus the right
padding, and above 100. -/
theorem C2_counterexample :
    alookup (createStopPositionMap
        [⟨"r0", ["c","u1","u2","u3","u4","u5","u6","g1","g2"], none⟩,
         ⟨"r1", ["c","u1","u2","u3","u4","u5","u6","g1","g2"], none⟩,
         ⟨"r2", ["c","u1","u2","u3","u4","u5","u6"], none⟩]
        ["c","u1","u2","u3","u4","u5","u6","g1","g2"] "c" []) "g2" = some ⟨105, true⟩
    ∧ ¬ ((105:ℚ) ≤ 100 - RIGHT_PADDING) ∧ ¬ ((105:ℚ) ≤ 100) := by
  refine ⟨?_, by norm_num [RIGHT_PADDING], by norm_num⟩
  rw [evalC2_map]
  norm_num +decide [alookup]

/-- Claim C2 (amended): every entry in the output of createStopPositionMap
has a position of at least the left padding constant; the upper bound of
the original claim does not hold (group desired positions 90 + 15·idx are
never checked against the right boundary). -/
theorem C2_lower_bound_amended (routes : List Route) (orderedStops : List String)
    (currentStopId : String) (stopsData : List (String × String))
    (e : String × StopPos)
    (he : e ∈ createStopPositionMap routes orderedStops currentStopId stopsData) :
    LEFT_PADDING ≤ e.2.position := by
  rw [createStopPositionMap_eq] at he
  split_ifs at he with hemp
  · exact preNormMap_ge routes orderedStops currentStopId stopsData e he
  · obtain ⟨e0, he0, rfl⟩ := List.mem_map.mp he
    exact normFun_ge
      (by
        intro q hq
        obtain ⟨e1, he1, rfl⟩ := List.mem_map.mp hq
        exact preNormMap_ge routes orderedStops currentStopId stopsData e1 he1)
      (List.mem_map_of_mem _ he0)

/-- Witness for C2: the amended lower bound applied at a concrete input. -/
theorem C2_witness :
    LEFT_PADDING ≤ (("g", (⟨5, true⟩ : StopPos)) : String × StopPos).2.position := by
  apply C2_lower_bound_amended
    [⟨"r0", ["c","g"], none⟩, ⟨"r1", ["c","g","z"], none⟩, ⟨"r2", ["c","p"], none⟩]
    ["c","g","z"] "c" []
  rw [evalC1_map]
  exact List.mem_cons_self _ _

/-- Claim C3: the code contradicts the minimum separation the
findAvailablePosition helper is built to enforce.  On the recorded failing
input the forward scan bumps the desired position 27/2 past 59/5, 76/5 and
93/5 to 103/5, never rechecking the earlier scanned position 22: the two
distinct final positions 103/5 and 22 differ by 7/5, less than
MIN_POSITION_DIFF, and neither lies at the clamped right boundary. -/
theorem C3_min_separation_failure :
    alookup (createStopPositionMap
        [⟨"r0", ["c","u1","x1","x2","x3","x4","u2","u3","u4","u5","u6"], none⟩,
         ⟨"r1", ["c","u1","y1","u2","u3","u4","u5","u6"], none⟩]
        ["c","u1","x1","x2","x3","x4","y1","u2","u3","u4","u5","u6"] "c" []) "y1" =
      some ⟨103/5, false⟩
    ∧ alookup (createStopPositionMap
        [⟨"r0", ["c","u1","x1","x2","x3","x4","u2","u3","u4","u5","u6"], none⟩,
         ⟨"r1", ["c","u1","y1","u2","u3","u4","u5","u6"], none⟩]
        ["c","u1","x1","x2","x3","x4","y1","u2","u3","u4","u5","u6"] "c" []) "u2" =
      some ⟨22, true⟩
    ∧ (103/5 : ℚ) ≠ 22
    ∧ ratAbs (103/5 - 22) < MIN_POSITION_DIFF
    ∧ (103/5 : ℚ) ≠ 100 - RIGHT_PADDING
    ∧ (22 : ℚ) ≠ 100 - RIGHT_PADDING := by
  refine ⟨?_, ?_, by norm_num, by norm_num [ratAbs, MIN_POSITION_DIFF],
    by norm_num [RIGHT_PADDING], by norm_num [RIGHT_PADDING]⟩ <;>
  · rw [evalC3_map]
    norm_num +decide [alookup]

/-- Claim C4, counterexample: route r0 traverses g before u, but u is
universal (position 5 after normalization) while the group local g is
placed right of the cross block and scaled to 90: the positions of the
displayed stops of r0 in route order are [90, 5], which is not non
decreasing. -/
theorem C4_counterexample :
    routeOrderStops ["c","g","u"] "c" ⟨"r0", ["c","g","u"], none⟩ = ["g", "u"]
    ∧ alookup (createStopPositionMap
        [⟨"r0", ["c","g","u"], none⟩, ⟨"r1", ["c","g","u"], none⟩, ⟨"r2", ["c","u"], none⟩]
        ["c","g","u"] "c" []) "g" = some ⟨90, true⟩
    ∧ alookup (createStopPositionMap
        [⟨"r0", ["c","g","u"], none⟩, ⟨"r1", ["c","g","u"], none⟩, ⟨"r2", ["c","u"], none⟩]
        ["c","g","u"] "c" []) "u" = some ⟨5, true⟩
    ∧ ¬ List.Chain' (fun a b : ℚ => a ≤ b) [90, 5] := by
  refine ⟨by norm_num +decide [routeOrderStops, routeOrderStopsAux], ?_, ?_, ?_⟩
  · rw [evalC4_map]; norm_num +decide [alookup]
  · rw [evalC4_map]; norm_num +decide [alookup]
  · intro h
    have := (List.chain'_cons.mp h).1
    norm_num at this

/-- Claim C4, amended: what holds by construction is the interpolation
rule for route local stops: with anchors in order (back position at most
forward position) the desired position lies between the anchors and grows
with the progress fraction; the full monotonicity of final positions along
a route fails on the code. -/
theorem C4_interpolation_monotone (s e t : ℚ) (h0 : 0 ≤ t) (h1 : t ≤ 1) (hse : s ≤ e) :
    (s ≤ interpDesired s e t ∧ interpDesired s e t ≤ e)
    ∧ ∀ t2, t ≤ t2 → t2 ≤ 1 → interpDesired s e t ≤ interpDesired s e t2 := by
  unfold interpDesired
  refine ⟨⟨by nlinarith, by nlinarith⟩, fun t2 h2 h3 => by nlinarith⟩

/-- Witness for the amended claim C4 at anchors 5 and 22 with progress
one half. -/
theorem C4_witness :
    (5 ≤ interpDesired 5 22 (1/2) ∧ interpDesired 5 22 (1/2) ≤ 22)
    ∧ interpDesired 5 22 (1/2) ≤ interpDesired 5 22 (3/4) := by
  have h := C4_interpolation_monotone 5 22 (1/2) (by norm_num) (by norm_num) (by norm_num)
  exact ⟨h.1, h.2 (3/4) (by norm_num) (by norm_num)⟩

/-- Claim C5: a stop name carried by every selected route (the universal
test of the source, routeSet.size equal to the route count) is assigned a
single position by createStopPositionMap: every stop id bearing that name
maps to that same position, flagged common. -/
theorem C5_universal_name_single_position (routes : List Route)
    (orderedStops : List String) (currentStopId : String)
    (stopsData : List (String × String)) (n : String)
    (hu : isUniversal routes orderedStops currentStopId stopsData n = true) :
    ∃ pos : ℚ, ∀ id sp,
      (id, sp) ∈ createStopPositionMap routes orderedStops currentStopId stopsData →
      getStopName stopsData id = n → sp = ⟨pos, true⟩ := by
  have hcr : n ∈ crossGroupStopsOf (nameToRoutesOf routes orderedStops currentStopId stopsData)
      (universalsOf (nameToRoutesOf routes orderedStops currentStopId stopsData) routes.length)
      (mergeGroups (nameToRoutesOf routes orderedStops currentStopId stopsData) routes.length
        (universalsOf (nameToRoutesOf routes orderedStops currentStopId stopsData)
          routes.length)) := by
    unfold isUniversal at hu
    apply universal_subset_cross
    split at hu
    · next rs hrs =>
      split_ifs at hu with hlen
      exact mem_universalsOf (alookup_mem hrs) hlen
    · next => simp at hu
  rw [createStopPositionMap_eq]
  cases hl : alookup (assignCross (orderedCrossNamesOf orderedStops currentStopId stopsData
      (crossGroupStopsOf (nameToRoutesOf routes orderedStops currentStopId stopsData)
        (universalsOf (nameToRoutesOf routes orderedStops currentStopId stopsData) routes.length)
        (mergeGroups (nameToRoutesOf routes orderedStops currentStopId stopsData) routes.length
          (universalsOf (nameToRoutesOf routes orderedStops currentStopId stopsData)
            routes.length))))).crossAssoc n with
  | some pos =>
    have hval := preNormMap_cross_value routes orderedStops currentStopId stopsData n pos hl
    split_ifs with hemp
    · exact ⟨pos, fun id sp hmem hname => hval id sp hmem hname⟩
    · refine ⟨normFun ((preNormMap routes orderedStops currentStopId stopsData).map
        (fun e => e.2.position)) pos, ?_⟩
      intro id sp hmem hname
      obtain ⟨e0, he0, heq⟩ := List.mem_map.mp hmem
      injection heq with h1 h2
      have hname0 : getStopName stopsData e0.1 = n := by rw [h1]; exact hname
      have hv := hval e0.1 e0.2 he0 hname0
      rw [← h2, hv]
  | none =>
    refine ⟨0, ?_⟩
    split_ifs with hemp
    · intro id sp hmem hname
      exfalso
      have hids := preNormMap_ids routes orderedStops currentStopId stopsData id sp hmem
      have hmemcross := mem_orderedCrossNamesOf hids.1 hids.2 (hname.symm ▸ hcr)
      have hsome := assignCross_lookup_isSome (hname ▸ hmemcross)
      rw [hl] at hsome
      simp at hsome
    · intro id sp hmem hname
      exfalso
      obtain ⟨e0, he0, heq⟩ := List.mem_map.mp hmem
      injection heq with h1 h2
      have hname0 : getStopName stopsData e0.1 = n := by rw [h1]; exact hname
      have hids := preNormMap_ids routes orderedStops currentStopId stopsData e0.1 e0.2 he0
      have hmemcross := mem_orderedCrossNamesOf hids.1 hids.2 (hname0.symm ▸ hcr)
      have hsome := assignCross_lookup_isSome (hname0 ▸ hmemcross)
      rw [hl] at hsome
      simp at hsome

/-- Witness for C5: on the recorded input the name A is carried by both
routes, so the two ids a1 and a2 bearing it share one common position. -/
theorem C5_witness :
    ∃ pos : ℚ, ∀ id sp,
      (id, sp) ∈ createStopPositionMap
        [⟨"r0", ["c","a1"], none⟩, ⟨"r1", ["c","a2"], none⟩]
        ["c","a1","a2"] "c" [("a1","A"),("a2","A")] →
      getStopName [("a1","A"),("a2","A")] id = "A" → sp = ⟨pos, true⟩ := by
  apply C5_universal_name_single_position
  norm_num +decide [isUniversal, nameToRoutesOf, routesContaining, routesContainingAux,
    getStopName, alookup, mapSet, setAdd, List.foldl]

/-- Claim C6: the route selection filter keeps exactly the routes for
which isLastMajorStopInRoute is false; isLastMajorStopInRoute holds
exactly when the stop occurs in the route and major stop filtering of its
onward stops yields the empty set; in particular a route in which the
selected stop has no onward stop is excluded from the filtered list. -/
theorem C6_terminal_route_exclusion (routes : List Route) (r : Route) (stopId : String)
    (rankingData : String → ℚ) (target : Nat) :
    (r ∈ filterNonTerminalRoutes routes stopId rankingData target ↔
      r ∈ routes ∧ isLastMajorStopInRoute r stopId rankingData target = false)
    ∧ (isLastMajorStopInRoute r stopId rankingData target = true ↔
      ∃ i, findStopIdx r.stopSequence stopId = some i ∧
        selectMajorStops ((sortBy rankGE (onwardRanked r i rankingData)).map
            (fun s => s.stopId)) rankingData
          (((onwardRanked r i rankingData).filter (fun s => s.isTerminal)).map
            (fun s => s.stopId)) none target = [])
    ∧ (∀ i, findStopIdx r.stopSequence stopId = some i → onwardStops r i = [] →
        r ∉ filterNonTerminalRoutes routes stopId rankingData target) := by
  have hfilter : r ∈ filterNonTerminalRoutes routes stopId rankingData target ↔
      r ∈ routes ∧ isLastMajorStopInRoute r stopId rankingData target = false := by
    simp [filterNonTerminalRoutes, List.mem_filter, Bool.not_eq_true']
  refine ⟨hfilter, ?_, ?_⟩
  · constructor
    · intro h
      simp only [isLastMajorStopInRoute] at h
      split at h
      · next => simp at h
      · next i hfind =>
        refine ⟨i, hfind, ?_⟩
        split_ifs at h with hemp
        · have honw : onwardStops r i = [] := List.isEmpty_iff.mp hemp
          simp only [onwardRanked, honw, List.map_nil, List.filter_nil, sortBy]
          exact selectMajorStops_nil rankingData target
        · exact List.isEmpty_iff.mp h
    · rintro ⟨i, hfind, hsel⟩
      simp only [isLastMajorStopInRoute, hfind]
      split_ifs with hemp
      · rfl
      · rw [hsel]
        rfl
  · intro i hfind hemp hmem
    have hlast : isLastMajorStopInRoute r stopId rankingData target = true := by
      simp only [isLastMajorStopInRoute, hfind]
      simp [onwardStops] at hemp ⊢
      simp [hemp]
    simp [filterNonTerminalRoutes, List.mem_filter, hlast] at hmem

/-- Witness for C6: a route whose only occurrence of the selected stop is
its last stop is dropped by the filter. -/
theorem C6_witness :
    (⟨"r1", ["a"], none⟩ : Route) ∉ filterNonTerminalRoutes
      [⟨"r0", ["a","b"], none⟩, ⟨"r1", ["a"], none⟩] "a" (fun _ => 0) 7 := by
  apply (C6_terminal_route_exclusion
    [⟨"r0", ["a","b"], none⟩, ⟨"r1", ["a"], none⟩]
    ⟨"r1", ["a"], none⟩ "a" (fun _ => 0) 7).2.2 0
  · norm_num +decide [findStopIdx, findStopIdxAux]
  · norm_num +decide [onwardStops]

/-- Claim C7, counterexample: two comparator calls over the same pair of
route identifiers 1 and 2 (only the stop names at the first differing
forward position are swapped) return opposite signs while the identifier
comparison is fixed at -1: with equal name frequencies the result is
decided by the names, not by the route identifiers. -/
theorem C7_counterexample :
    createGroupSizeComparator
      [⟨"1", ["s","X"], none⟩, ⟨"2", ["s","Y"], none⟩] []
      ⟨"1", ["s","X"], none⟩ ⟨"2", ["s","Y"], none⟩ = -1
    ∧ createGroupSizeComparator
      [⟨"1", ["s","Y"], none⟩, ⟨"2", ["s","X"], none⟩] []
      ⟨"1", ["s","Y"], none⟩ ⟨"2", ["s","X"], none⟩ = 1
    ∧ sortServices "1" "2" = -1 := by
  refine ⟨?_, ?_, ?_⟩ <;>
    norm_num +decide [createGroupSizeComparator, groupCmpAux, buildForwardGroupStats,
      getSequence, getStopName, alookup, mapSet, strCmpInt, sortServices, strToNat?,
      digitsVal, List.foldl]

/-- Claim C7 (amended): at the first forward position (index 1 and on)
where the two routes' name sequences differ, the comparator returns the
frequency difference (higher frequency sorts first) when the two
frequencies differ, and otherwise the code point comparison of the two
stop names; the route identifier comparison is reached only when every
forward position agrees. -/
theorem C7_comparator_amended (routes : List Route) (stopsData : List (String × String))
    (a b : Route) (pre la lb : List String) (na nb : String) (hne : na ≠ nb)
    (ha : ((getSequence a).map (getStopName stopsData)).drop 1 = pre ++ na :: la)
    (hb : ((getSequence b).map (getStopName stopsData)).drop 1 = pre ++ nb :: lb) :
    createGroupSizeComparator routes stopsData a b =
      if (alookup (buildForwardGroupStats routes stopsData (1 + pre.length)) na).getD 0 ≠
          (alookup (buildForwardGroupStats routes stopsData (1 + pre.length)) nb).getD 0 then
        ((alookup (buildForwardGroupStats routes stopsData (1 + pre.length)) nb).getD 0 : Int) -
          ((alookup (buildForwardGroupStats routes stopsData (1 + pre.length)) na).getD 0 : Int)
      else strCmpInt na nb := by
  unfold createGroupSizeComparator
  rw [ha, hb]
  exact groupCmpAux_firstDiff _ _ na nb hne pre 1 la lb

/-- Witness for C7: the amended comparator description applied at a
concrete input whose first forward names already differ. -/
theorem C7_witness :
    createGroupSizeComparator [⟨"1", ["s","X"], none⟩, ⟨"2", ["s","Y"], none⟩] []
      ⟨"1", ["s","X"], none⟩ ⟨"2", ["s","Y"], none⟩ =
      if (alookup (buildForwardGroupStats [⟨"1", ["s","X"], none⟩, ⟨"2", ["s","Y"], none⟩]
            [] (1 + ([] : List String).length)) "X").getD 0 ≠
          (alookup (buildForwardGroupStats [⟨"1", ["s","X"], none⟩, ⟨"2", ["s","Y"], none⟩]
            [] (1 + ([] : List String).length)) "Y").getD 0 then
        ((alookup (buildForwardGroupStats [⟨"1", ["s","X"], none⟩, ⟨"2", ["s","Y"], none⟩]
            [] (1 + ([] : List String).length)) "Y").getD 0 : Int) -
          ((alookup (buildForwardGroupStats [⟨"1", ["s","X"], none⟩, ⟨"2", ["s","Y"], none⟩]
            [] (1 + ([] : List String).length)) "X").getD 0 : Int)
      else strCmpInt "X" "Y" := by
  exact C7_comparator_amended
    [⟨"1", ["s","X"], none⟩, ⟨"2", ["s","Y"], none⟩] []
    ⟨"1", ["s","X"], none⟩ ⟨"2", ["s","Y"], none⟩ [] [] [] "X" "Y"
    (by norm_num +decide)
    (by norm_num +decide [getSequence, getStopName, alookup])
    (by norm_num +decide [getSequence, getStopName, alookup])

/-- Claim C8, counterexample: two one character labels anchored at the
same position overflow the drift clamp: the second label is pushed only to
its bound 65 and the two resolved labels still overlap under the projected
footprint model. -/
theorem C8_counterexample :
    resolveLabelOverlaps cosLabelAngle 100
      [⟨"A", 50, 50, 0⟩, ⟨"A", 50, 50, 10⟩] =
      [⟨"A", 50, 50, 0⟩, ⟨"A", 65, 50, 10⟩]
    ∧ labelsOverlap cosLabelAngle 100 ⟨"A", 50, 50, 0⟩ ⟨"A", 65, 50, 10⟩ := by
  have hlen : ("A" : String).length = 1 := by decide
  refine ⟨evalC8_resolve, ?_⟩
  norm_num +decide [labelsOverlap, xScale, projWidth, estimateWidth, cosLabelAngle,
    ROUTE_LABEL_WIDTH, hlen]

/-- Claim C8 (amended): the drift half of the claim holds: when every
label starts at its natural anchor and no natural anchor exceeds 100,
every label output by the overlap resolution pass sits within the maximum
drift bound of its natural anchor.  The no-overlap half fails (see the
counterexample): the push is clamped to the drift bound and the clamped
label can still overlap its predecessor. -/
theorem C8_drift_bound_amended (proj dW : ℚ) (labels : List Label)
    (h : ∀ l ∈ labels, l.x = l.originalX ∧ l.originalX ≤ 100) :
    ∀ l ∈ resolveLabelOverlaps proj dW labels,
      ratAbs (l.x - l.originalX) ≤ MAX_DRIFT_PERCENT := by
  intro l hl
  unfold resolveLabelOverlaps at hl
  split at hl
  · next => simp at hl
  · next m rest hsort =>
    have hmem : ∀ q ∈ m :: rest, q.x = q.originalX ∧ q.originalX ≤ 100 := by
      intro q hq
      have hq2 : q ∈ sortBy labelLE labels := by rw [hsort]; exact hq
      exact h q ((mem_sortBy labelLE q labels).mp hq2)
    have hm := hmem m (List.mem_cons_self _ _)
    have hcur : ratAbs (m.x - m.originalX) ≤ MAX_DRIFT_PERCENT := by
      rw [hm.1]
      norm_num [ratAbs, MAX_DRIFT_PERCENT]
    refine resolvePass_drift proj dW rest m hcur ?_ l hl
    intro q hq
    have hq2 := hmem q (List.mem_cons_of_mem _ hq)
    refine ⟨?_, hq2.2⟩
    rw [hq2.1]
    norm_num [ratAbs, MAX_DRIFT_PERCENT]

/-- Witness for C8: the clamped label of the counterexample run respects
the drift bound. -/
theorem C8_witness :
    ratAbs ((⟨"A", 65, 50, 10⟩ : Label).x - (⟨"A", 65, 50, 10⟩ : Label).originalX) ≤
      MAX_DRIFT_PERCENT := by
  apply C8_drift_bound_amended cosLabelAngle 100
    [⟨"A", 50, 50, 0⟩, ⟨"A", 50, 50, 10⟩]
  · intro l hl
    simp only [List.mem_cons, List.mem_singleton] at hl
    rcases hl with rfl | rfl | h
    · exact ⟨rfl, by norm_num⟩
    · exact ⟨rfl, by norm_num⟩
    · simp at h
  · rw [evalC8_resolve]
    simp

/-- Claim C9: findRoutesForStop emits at most one entry per service key
(one break per service), each entry carries sequences[0] of the first
destination any of whose sequence variants contains the stop, and on the
recorded input the returned stopSequence does not contain the queried
stop. -/
theorem C9_find_routes_for_stop (stopId : String)
    (servicesData : List (String × ServiceData))
    (hkeys : (servicesData.map Prod.fst).Nodup) :
    ((findRoutesForStop stopId servicesData).map (fun r => r.routeId)).Nodup
    ∧ (∀ r ∈ findRoutesForStop stopId servicesData,
        ∃ p d, p ∈ servicesData ∧ findDest stopId p.2.dests = some d ∧
          r = FoundRoute.mk p.1 p.2.name d.destId (d.sequences.headD []))
    ∧ (∀ (dests : List ServiceDest) (d : ServiceDest),
        findDest stopId dests = some d ↔
          ∃ pre post, dests = pre ++ d :: post ∧
            (∀ d2 ∈ pre, ¬ ∃ seq ∈ d2.sequences, stopId ∈ seq) ∧
            ∃ seq ∈ d.sequences, stopId ∈ seq)
    ∧ (findRoutesForStop "s" [("A", ⟨"NameA", [⟨"d", [["x"], ["y","s"]]⟩]⟩)] =
        [⟨"A", "NameA", "d", ["x"]⟩] ∧ "s" ∉ (["x"] : List String)) := by
  refine ⟨(findRoutes_ids_sublist stopId servicesData).nodup hkeys, ?_,
    findDest_first_match stopId, ?_, by norm_num +decide⟩
  · intro r hr
    obtain ⟨p, hp, hmap⟩ := List.mem_filterMap.mp hr
    cases hfd : findDest stopId p.2.dests with
    | none => rw [hfd] at hmap; simp at hmap
    | some d =>
      rw [hfd] at hmap
      simp only [Option.map_some', Option.some.injEq] at hmap
      exact ⟨p, d, hp, hfd, hmap.symm⟩
  · norm_num +decide [findRoutesForStop, findDest, List.filterMap]

/-- Witness for C9: the distinct key hypothesis discharged on the
recorded input. -/
theorem C9_witness :
    ((findRoutesForStop "s" [("A", ⟨"NameA", [⟨"d", [["x"], ["y","s"]]⟩]⟩)]).map
      (fun r => r.routeId)).Nodup := by
  exact (C9_find_routes_for_stop "s" [("A", ⟨"NameA", [⟨"d", [["x"], ["y","s"]]⟩]⟩)]
    (by simp)).1

/-- Claim C10, counterexample: the JS Set deduplicates, so on a non empty
candidate list of six equal ids the selection holds one element, below
min(5, number of candidate stops) = 5. -/
theorem C10_counterexample :
    selectMajorStops ["a","a","a","a","a","a"] (fun _ => 0) [] none 1 = ["a"]
    ∧ (["a","a","a","a","a","a"] : List String) ≠ []
    ∧ ¬ (min 5 (["a","a","a","a","a","a"] : List String).length ≤
        (selectMajorStops ["a","a","a","a","a","a"] (fun _ => 0) [] none 1).length) := by
  have h : selectMajorStops ["a","a","a","a","a","a"] (fun _ => 0) [] none 1 = ["a"] := by
    norm_num +decide [selectMajorStops, sortBy, stableInsert, rankGE, selectLoopA,
      selectLoopB, selectLoopC, setAdd, List.foldl]
  refine ⟨h, by norm_num +decide, ?_⟩
  rw [h]
  norm_num +decide

/-- Claim C10 (amended): the selection always holds at least
min(5, number of distinct candidate ids) stops, for every
targetMajorStops; the bound of the original claim counts candidate list
entries, which overcounts duplicated ids. -/
theorem C10_min_size_amended (stops : List String) (rankingData : String → ℚ)
    (terminalStops : List String) (currentStopId : Option String)
    (targetMajorStops : Nat) :
    min 5 stops.dedup.length ≤
      (selectMajorStops stops rankingData terminalStops currentStopId
        targetMajorStops).length := by
  have key : ∀ s2 : List String,
      min 5 stops.dedup.length ≤
        (if s2.length < min 5 stops.length then
          selectLoopC (min 5 stops.length)
            (sortBy rankGE (stops.map (fun id => RankedStop.mk id (rankingData id)
              (if id ∈ terminalStops then true else false)))) s2
        else s2).length := by
    intro s2
    split_ifs with hlt
    · rcases selectLoopC_post (min 5 stops.length)
        (sortBy rankGE (stops.map (fun id => RankedStop.mk id (rankingData id)
          (if id ∈ terminalStops then true else false)))) s2 with h | h
      · have hd := List.Sublist.length_le (List.dedup_sublist stops)
        omega
      · have hsub : ∀ x ∈ stops.dedup, x ∈ selectLoopC (min 5 stops.length)
            (sortBy rankGE (stops.map (fun id => RankedStop.mk id (rankingData id)
              (if id ∈ terminalStops then true else false)))) s2 := by
          intro x hx
          have hx2 : x ∈ stops := List.mem_dedup.mp hx
          have hmem : RankedStop.mk x (rankingData x)
              (if x ∈ terminalStops then true else false) ∈
              stops.map (fun id => RankedStop.mk id (rankingData id)
                (if id ∈ terminalStops then true else false)) :=
            List.mem_map_of_mem _ hx2
          exact h _ ((mem_sortBy rankGE _ _).mpr hmem)
        have h1 : stops.dedup.toFinset.card = stops.dedup.length :=
          List.toFinset_card_of_nodup (List.nodup_dedup stops)
        have h2 : stops.dedup.toFinset ⊆ (selectLoopC (min 5 stops.length)
            (sortBy rankGE (stops.map (fun id => RankedStop.mk id (rankingData id)
              (if id ∈ terminalStops then true else false)))) s2).toFinset := by
          intro a ha
          rw [List.mem_toFinset] at ha ⊢
          exact hsub a ha
        have h3 := Finset.card_le_card h2
        have h4 := List.toFinset_card_le (selectLoopC (min 5 stops.length)
          (sortBy rankGE (stops.map (fun id => RankedStop.mk id (rankingData id)
            (if id ∈ terminalStops then true else false)))) s2)
        omega
    · have hd := List.Sublist.length_le (List.dedup_sublist stops)
      omega
  simp only [selectMajorStops]
  exact key _

end TransitRouter
